import Mathlib

/-!
Shallow embedding of the open-calc expression evaluator
(`src/include/parser/expression_parser.hpp` together with the arithmetic
primitives of `src/include/computation/standard_calculator.hpp`).

Machine doubles are modelled by exact rationals (`ℚ`); every numeric value a
claim exercises is a small dyadic/decimal number on which IEEE-754 double
arithmetic is exact.  The transcendental bodies of the registered functions
(`std::sin`, `std::log`, ...) belong to the external math library, which the
specification declares out of scope; they are modelled by an abstract
`MathLib` parameter.  The C++ recursion is unbounded, so the recursive
descent is embedded with a fuel parameter; `EvalError.outOfFuel` is an
artifact of the embedding and is never produced once the fuel exceeds the
bound used by `evaluate`.
-/

namespace OpenCalc

/-- Error kinds. Each constructor corresponds to one `throw` site of the
source (`std::runtime_error` / `std::domain_error` messages). -/
inductive EvalError where
  /-- "Unexpected end of expression" (`parse_factor`). -/
  | unexpectedEnd
  /-- "Mismatched parentheses" (grouping context, `parse_factor`). -/
  | mismatchedParens
  /-- "Mismatched parentheses in function call" (`parse_factor`). -/
  | mismatchedParensFunc
  /-- "Unknown function: <name>" (`parse_factor`). -/
  | unknownFunction (name : String)
  /-- "Unknown identifier: <name>" (`parse_factor`). -/
  | unknownIdentifier (name : String)
  /-- "Expected number" (`parse_number`). -/
  | expectedNumber
  /-- "Invalid number format" (two decimal points, `parse_number`). -/
  | invalidNumberFormat
  /-- "Invalid number: <literal>" (`std::stod` failure, `parse_number`). -/
  | invalidNumber (lit : String)
  /-- `std::domain_error` raised by a `StandardCalculator` primitive. -/
  | domainError (msg : String)
  /-- Artifact of the fuel-based embedding of the unbounded C++ recursion;
  not an error of the source program. -/
  | outOfFuel
deriving DecidableEq, Repr

abbrev EvalResult (α : Type) := Except EvalError α

/-! ### Character classification (C locale, as used via `<cctype>`) -/

/-- `std::isspace` in the C locale. -/
def isSpaceChar (c : Char) : Bool :=
  c = ' ' || c = '\t' || c = '\n' || c = '\x0b' || c = '\x0c' || c = '\r'

/-- `std::isdigit`. -/
def isDigitChar (c : Char) : Bool :=
  48 ≤ c.toNat && c.toNat ≤ 57

/-- `std::isalpha` in the C locale (ASCII letters). -/
def isAlphaChar (c : Char) : Bool :=
  (65 ≤ c.toNat && c.toNat ≤ 90) || (97 ≤ c.toNat && c.toNat ≤ 122)

/-- `std::isalnum(c) || c == '_'`: the identifier-continuation test of
`parse_factor`. -/
def isIdentChar (c : Char) : Bool :=
  isAlphaChar c || isDigitChar c || c = '_'

/-- Numeric value of a decimal digit character. -/
def digitVal (c : Char) : Nat := c.toNat - 48

/-! ### Registries (`std::map` keyed by `std::string`) -/

/-- A `std::map<std::string, α>`, modelled as an association list with
unique keys; only `find` (lookup) and `operator[]` (insert-or-overwrite)
are used by the source. -/
def Registry (α : Type) : Type := List (String × α)

/-- `map.find(name)`. -/
def lookupReg {α : Type} : Registry α → String → Option α
  | [], _ => none
  | (k, v) :: t, name => if k = name then some v else lookupReg t name

/-- `map[name] = v` (insert or overwrite). -/
def insertReg {α : Type} : Registry α → String → α → Registry α
  | [], name, v => [(name, v)]
  | (k, w) :: t, name, v =>
      if k = name then (name, v) :: t else (k, w) :: insertReg t name v

/-! ### Cursor primitives -/

/-- Length of the longest prefix of `l` all of whose characters satisfy
`p`. -/
def countWhile (p : Char → Bool) : List Char → Nat
  | [] => 0
  | c :: t => if p c then countWhile p t + 1 else 0

/-- The character at offset `p` (the source indexes only after a bounds
check, so the default is never observed). -/
def charAt (l : List Char) (p : Nat) : Char := (l.drop p).headD ' '

/-- `skip_whitespace()`: advance the cursor past whitespace. -/
def skipWs (input : List Char) (pos : Nat) : Nat :=
  pos + countWhile isSpaceChar (input.drop pos)

/-! ### The external math library -/

/-- The external math collaborator (`<cmath>` / Accelerate): an
uninterpreted family of unary and binary real functions indexed by name.
The spec (§1) places their implementations out of scope. -/
structure MathLib where
  unary : String → ℚ → ℚ
  binary : String → ℚ → ℚ → ℚ

/-- A concrete (trivial) math library, used to state closed facts that do
not depend on the transcendental primitives. -/
def zeroMathLib : MathLib := ⟨fun _ _ => 0, fun _ _ _ => 0⟩

/-! ### StandardCalculator (standard_calculator.hpp) -/

namespace StandardCalculator

/-- `add`. -/
def add (a b : ℚ) : ℚ := a + b

/-- `subtract`. -/
def subtract (a b : ℚ) : ℚ := a - b

/-- `multiply`. -/
def multiply (a b : ℚ) : ℚ := a * b

/-- `divide`: throws `std::domain_error("Division by zero")` iff `b == 0`. -/
def divide (a b : ℚ) : EvalResult ℚ :=
  if b = 0 then .error (.domainError "Division by zero") else .ok (a / b)

/-- Truncation toward zero, the rounding used by `std::fmod`. -/
def truncQ (q : ℚ) : ℤ := q.num.tdiv q.den

/-- `std::fmod` for a non-zero divisor (exact on doubles). -/
def fmodQ (a b : ℚ) : ℚ := a - b * (truncQ (a / b) : ℚ)

/-- `modulo`: throws `std::domain_error("Modulo by zero")` iff `b == 0`. -/
def modulo (a b : ℚ) : EvalResult ℚ :=
  if b = 0 then .error (.domainError "Modulo by zero") else .ok (fmodQ a b)

/-- `power` = `std::pow`.  On an integral exponent (with the
non-representable `0^negative` case set aside) `std::pow` is exact and
equals the iterated product; elsewhere it is a transcendental of the
external math library. -/
def power (m : MathLib) (a b : ℚ) : ℚ :=
  if b.den = 1 ∧ ¬(a = 0 ∧ b.num < 0) then a ^ b.num else m.binary "pow" a b

/-- `sin`. -/
def calcSin (m : MathLib) (x : ℚ) : EvalResult ℚ := .ok (m.unary "sin" x)

/-- `cos`. -/
def calcCos (m : MathLib) (x : ℚ) : EvalResult ℚ := .ok (m.unary "cos" x)

/-- `tan`. -/
def calcTan (m : MathLib) (x : ℚ) : EvalResult ℚ := .ok (m.unary "tan" x)

/-- `asin`: domain check from the source, then `std::asin`. -/
def calcAsin (m : MathLib) (x : ℚ) : EvalResult ℚ :=
  if x < -1 ∨ 1 < x then .error (.domainError "asin domain error: x must be in [-1, 1]")
  else .ok (m.unary "asin" x)

/-- `acos`: domain check from the source, then `std::acos`. -/
def calcAcos (m : MathLib) (x : ℚ) : EvalResult ℚ :=
  if x < -1 ∨ 1 < x then .error (.domainError "acos domain error: x must be in [-1, 1]")
  else .ok (m.unary "acos" x)

/-- `atan`. -/
def calcAtan (m : MathLib) (x : ℚ) : EvalResult ℚ := .ok (m.unary "atan" x)

/-- `sinh`. -/
def calcSinh (m : MathLib) (x : ℚ) : EvalResult ℚ := .ok (m.unary "sinh" x)

/-- `cosh`. -/
def calcCosh (m : MathLib) (x : ℚ) : EvalResult ℚ := .ok (m.unary "cosh" x)

/-- `tanh`. -/
def calcTanh (m : MathLib) (x : ℚ) : EvalResult ℚ := .ok (m.unary "tanh" x)

/-- `sqrt`: domain check from the source, then `std::sqrt`. -/
def calcSqrt (m : MathLib) (x : ℚ) : EvalResult ℚ :=
  if x < 0 then .error (.domainError "Square root of negative number")
  else .ok (m.unary "sqrt" x)

/-- `cbrt`. -/
def calcCbrt (m : MathLib) (x : ℚ) : EvalResult ℚ := .ok (m.unary "cbrt" x)

/-- `abs` = `std::fabs`, exact on doubles. -/
def calcAbs (_m : MathLib) (x : ℚ) : EvalResult ℚ := .ok |x|

/-- `exp`. -/
def calcExp (m : MathLib) (x : ℚ) : EvalResult ℚ := .ok (m.unary "exp" x)

/-- `log` (natural logarithm): domain check from the source, then
`std::log`. -/
def calcLog (m : MathLib) (x : ℚ) : EvalResult ℚ :=
  if x ≤ 0 then .error (.domainError "Logarithm of non-positive number")
  else .ok (m.unary "log" x)

/-- `log10`: domain check from the source, then `std::log10`. -/
def calcLog10 (m : MathLib) (x : ℚ) : EvalResult ℚ :=
  if x ≤ 0 then .error (.domainError "Logarithm of non-positive number")
  else .ok (m.unary "log10" x)

/-- `log2`: domain check from the source, then `std::log2`. -/
def calcLog2 (m : MathLib) (x : ℚ) : EvalResult ℚ :=
  if x ≤ 0 then .error (.domainError "Logarithm of non-positive number")
  else .ok (m.unary "log2" x)

/-- `floor` = `std::floor`, exact on doubles. -/
def calcFloor (_m : MathLib) (x : ℚ) : EvalResult ℚ := .ok (⌊x⌋ : ℤ)

/-- `ceil` = `std::ceil`, exact on doubles. -/
def calcCeil (_m : MathLib) (x : ℚ) : EvalResult ℚ := .ok (⌈x⌉ : ℤ)

/-- `round` = `std::round` (half away from zero), exact on doubles. -/
def calcRound (_m : MathLib) (x : ℚ) : EvalResult ℚ :=
  if 0 ≤ x then .ok (⌊x + 1/2⌋ : ℤ) else .ok (⌈x - 1/2⌉ : ℤ)

/-- `StandardCalculator::PI`. -/
def PI : ℚ := 3.14159265358979323846

/-- `StandardCalculator::E`. -/
def E : ℚ := 2.71828182845904523536

/-- `StandardCalculator::GOLDEN_RATIO`. -/
def GOLDEN_RATIO : ℚ := 1.61803398874989484820

end StandardCalculator

/-! ### Number scanning (`parse_number`) -/

/-- The digits-and-dot scanning loop of `parse_number`: returns the number
of characters consumed, or the "Invalid number format" error when a second
decimal point is met.  `hasDot` is the `has_dot` flag. -/
def scanMantissa : List Char → Bool → EvalResult Nat
  | [], _ => .ok 0
  | c :: t, hasDot =>
      if c = '.' then
        if hasDot then .error .invalidNumberFormat
        else (scanMantissa t true).map (· + 1)
      else if isDigitChar c then (scanMantissa t hasDot).map (· + 1)
      else .ok 0

/-- The scientific-notation scanning of `parse_number`: if the next
character is `e`/`E` it is consumed, then an optional sign, then any run of
digits (possibly empty).  Returns the number of characters consumed. -/
def scanExpPart : List Char → Nat
  | [] => 0
  | c :: t =>
      if c = 'e' ∨ c = 'E' then
        1 + (match t with
          | [] => 0
          | s :: t2 =>
              if s = '+' ∨ s = '-' then 1 + countWhile isDigitChar t2
              else countWhile isDigitChar t)
      else 0

/-- Decimal value of a digit string (most significant first). -/
def digitsVal (l : List Char) : Nat :=
  l.foldl (fun a c => 10 * a + digitVal c) 0

/-- Value denoted by integer digits, fraction digits and a decimal
exponent. -/
def decValue (intD fracD : List Char) (exp : ℤ) : ℚ :=
  ((digitsVal intD : ℚ) + (digitsVal fracD : ℚ) / 10 ^ fracD.length) * 10 ^ exp

/-- Exponent contributed by the characters following the `e`/`E` marker:
`std::strtod` includes the exponent part only when at least one digit
follows the optional sign. -/
def stodExp (l : List Char) (sign : ℤ) : ℤ :=
  if (l.takeWhile isDigitChar).isEmpty then 0
  else sign * (digitsVal (l.takeWhile isDigitChar) : ℤ)

/-- `std::stod` on the strings produced by the scanner of `parse_number`
(no leading whitespace or sign, no hex/inf/nan): convert the longest valid
decimal prefix; `none` when no conversion can be performed. -/
def stodQ (s : List Char) : Option ℚ :=
  let intD := s.takeWhile isDigitChar
  let r1 := s.dropWhile isDigitChar
  let fracD := match r1 with
    | '.' :: t => t.takeWhile isDigitChar
    | _ => []
  let r2 := match r1 with
    | '.' :: t => t.dropWhile isDigitChar
    | _ => r1
  if intD.isEmpty && fracD.isEmpty then none
  else
    let exp : ℤ := match r2 with
      | [] => 0
      | c :: t =>
          if c = 'e' ∨ c = 'E' then
            match t with
            | '+' :: t2 => stodExp t2 1
            | '-' :: t2 => stodExp t2 (-1)
            | _ => stodExp t 1
          else 0
    some (decValue intD fracD exp)

/-- `parse_number`: skip whitespace, scan a numeric literal (digits with at
most one dot, then an optional scientific-notation part), and convert it
with `std::stod`.  Returns the value and the new cursor position. -/
def parseNumber (input : List Char) (pos : Nat) : EvalResult (ℚ × Nat) :=
  let p := skipWs input pos
  if p < input.length then
    match scanMantissa (input.drop p) false with
    | .error e => .error e
    | .ok k =>
        let p2 := p + k
        let pEnd := p2 + scanExpPart (input.drop p2)
        if p = pEnd then .error .expectedNumber
        else
          let lit := (input.drop p).take (pEnd - p)
          match stodQ lit with
          | none => .error (.invalidNumber (String.mk lit))
          | some q => .ok (q, pEnd)
  else .error .expectedNumber

/-! ### The recursive descent -/

/-- Evaluation context of one `evaluate` call: the input text and the
registries (the `input_`, `functions_` and `constants_` members), together
with the external math library. -/
structure Ctx where
  input : List Char
  mlib : MathLib
  funcs : Registry (ℚ → EvalResult ℚ)
  consts : Registry ℚ

/-- One activation record of the mutually recursive grammar productions:
`expr`/`term`/`factor` are entries into `parse_expression`, `parse_term`
and `parse_factor`; `exprLoop`/`termLoop` are the states of their `while`
loops, carrying the accumulated left operand (`result`). -/
inductive Call where
  | expr (pos : Nat)
  | exprLoop (acc : ℚ) (pos : Nat)
  | term (pos : Nat)
  | termLoop (acc : ℚ) (pos : Nat)
  | factor (pos : Nat)

/-- The cursor position at which a call starts. -/
def Call.pos : Call → Nat
  | .expr p => p
  | .exprLoop _ p => p
  | .term p => p
  | .termLoop _ p => p
  | .factor p => p

/-- The end of the identifier scanned from position `p` (the maximal run
of alphanumeric/underscore characters). -/
def identEnd (input : List Char) (p : Nat) : Nat :=
  p + countWhile isIdentChar (input.drop p)

/-- The identifier scanned from position `p`. -/
def identName (input : List Char) (p : Nat) : String :=
  String.mk ((input.drop p).take (countWhile isIdentChar (input.drop p)))

/-- The recursive descent of `expression_parser.hpp`, embedded as one
fuelled function over activation records.

* `.expr`  — `parse_expression`: parse a term, then run the `+`/`-` loop.
* `.exprLoop` — the loop of `parse_expression`.
* `.term`  — `parse_term`: parse a factor, then run the `*`/`/`/`%` loop.
* `.termLoop` — the loop of `parse_term`.
* `.factor` — `parse_factor`: whitespace, end-of-input check, then the
  four branches (unary sign, parenthesized group, identifier, number); the
  power operator `'^'` is checked for only after a closing `')'` and after
  a numeric literal, exactly as in the source. -/
def parse (ctx : Ctx) (fuel : Nat) (call : Call) : EvalResult (ℚ × Nat) :=
  if fuel = 0 then .error .outOfFuel
  else
    let fuel := fuel - 1
    match call with
    | .expr pos =>
        match parse ctx fuel (.term pos) with
        | .error e => .error e
        | .ok (v, p) => parse ctx fuel (.exprLoop v p)
    | .exprLoop acc pos =>
        if pos < ctx.input.length then
          let p := skipWs ctx.input pos
          if p < ctx.input.length then
            let c := charAt ctx.input p
            if c = '+' ∨ c = '-' then
              match parse ctx fuel (.term (p + 1)) with
              | .error e => .error e
              | .ok (r, p') =>
                  parse ctx fuel (.exprLoop
                    (if c = '+' then StandardCalculator.add acc r
                     else StandardCalculator.subtract acc r) p')
            else .ok (acc, p)
          else .ok (acc, p)
        else .ok (acc, pos)
    | .term pos =>
        match parse ctx fuel (.factor pos) with
        | .error e => .error e
        | .ok (v, p) => parse ctx fuel (.termLoop v p)
    | .termLoop acc pos =>
        if pos < ctx.input.length then
          let p := skipWs ctx.input pos
          if p < ctx.input.length then
            let c := charAt ctx.input p
            if c = '*' ∨ c = '/' ∨ c = '%' then
              match parse ctx fuel (.factor (p + 1)) with
              | .error e => .error e
              | .ok (r, p') =>
                  match (if c = '*' then .ok (StandardCalculator.multiply acc r)
                         else if c = '/' then StandardCalculator.divide acc r
                         else StandardCalculator.modulo acc r : EvalResult ℚ) with
                  | .error e => .error e
                  | .ok acc' => parse ctx fuel (.termLoop acc' p')
            else .ok (acc, p)
          else .ok (acc, p)
        else .ok (acc, pos)
    | .factor pos =>
        let p := skipWs ctx.input pos
        if p < ctx.input.length then
          let c := charAt ctx.input p
          if c = '-' ∨ c = '+' then
            match parse ctx fuel (.factor (p + 1)) with
            | .error e => .error e
            | .ok (v, p') => .ok (if c = '-' then -v else v, p')
          else if c = '(' then
            match parse ctx fuel (.expr (p + 1)) with
            | .error e => .error e
            | .ok (v, p1) =>
                let p2 := skipWs ctx.input p1
                if p2 < ctx.input.length ∧ charAt ctx.input p2 = ')' then
                  let p3 := skipWs ctx.input (p2 + 1)
                  if p3 < ctx.input.length ∧ charAt ctx.input p3 = '^' then
                    match parse ctx fuel (.factor (p3 + 1)) with
                    | .error e => .error e
                    | .ok (ex, p4) =>
                        .ok (StandardCalculator.power ctx.mlib v ex, p4)
                  else .ok (v, p3)
                else .error .mismatchedParens
          else if isAlphaChar c then
            let name := identName ctx.input p
            let p2 := skipWs ctx.input (identEnd ctx.input p)
            if p2 < ctx.input.length ∧ charAt ctx.input p2 = '(' then
              match parse ctx fuel (.expr (p2 + 1)) with
              | .error e => .error e
              | .ok (arg, p3) =>
                  let p4 := skipWs ctx.input p3
                  if p4 < ctx.input.length ∧ charAt ctx.input p4 = ')' then
                    match lookupReg ctx.funcs name with
                    | none => .error (.unknownFunction name)
                    | some f =>
                        match f arg with
                        | .error e => .error e
                        | .ok v => .ok (v, p4 + 1)
                  else .error .mismatchedParensFunc
            else
              match lookupReg ctx.consts name with
              | some v => .ok (v, p2)
              | none => .error (.unknownIdentifier name)
          else
            match parseNumber ctx.input p with
            | .error e => .error e
            | .ok (v, p1) =>
                let p2 := skipWs ctx.input p1
                if p2 < ctx.input.length ∧ charAt ctx.input p2 = '^' then
                  match parse ctx fuel (.factor (p2 + 1)) with
                  | .error e => .error e
                  | .ok (ex, p3) =>
                      .ok (StandardCalculator.power ctx.mlib v ex, p3)
                else .ok (v, p2)
        else .error .unexpectedEnd
termination_by fuel
decreasing_by all_goals omega

/-! ### The default registry and `evaluate` -/

/-- The function registry installed by the `ExpressionParser` constructor,
in registration order.  Note `ln` is bound to the natural logarithm
(`StandardCalculator::log`) and `log` to the base-10 logarithm
(`StandardCalculator::log10`). -/
def defaultFunctions (m : MathLib) : Registry (ℚ → EvalResult ℚ) :=
  [("sin", StandardCalculator.calcSin m),
   ("cos", StandardCalculator.calcCos m),
   ("tan", StandardCalculator.calcTan m),
   ("asin", StandardCalculator.calcAsin m),
   ("acos", StandardCalculator.calcAcos m),
   ("atan", StandardCalculator.calcAtan m),
   ("sinh", StandardCalculator.calcSinh m),
   ("cosh", StandardCalculator.calcCosh m),
   ("tanh", StandardCalculator.calcTanh m),
   ("sqrt", StandardCalculator.calcSqrt m),
   ("cbrt", StandardCalculator.calcCbrt m),
   ("abs", StandardCalculator.calcAbs m),
   ("exp", StandardCalculator.calcExp m),
   ("ln", StandardCalculator.calcLog m),
   ("log", StandardCalculator.calcLog10 m),
   ("log2", StandardCalculator.calcLog2 m),
   ("floor", StandardCalculator.calcFloor m),
   ("ceil", StandardCalculator.calcCeil m),
   ("round", StandardCalculator.calcRound m)]

/-- The constant registry installed by the constructor. -/
def defaultConstants : Registry ℚ :=
  [("pi", StandardCalculator.PI),
   ("e", StandardCalculator.E),
   ("phi", StandardCalculator.GOLDEN_RATIO)]

/-- Fuel that amply covers any run of the descent on `s` (each unit of
input sustains at most a bounded number of recursive calls). -/
def evalFuel (s : String) : Nat := 4 * s.length + 8

/-- `evaluate` against explicit registries: reset the cursor to zero,
parse one `expression`, return its value (the final cursor position is
discarded, as in the source). -/
def evaluateWith (m : MathLib) (funcs : Registry (ℚ → EvalResult ℚ))
    (consts : Registry ℚ) (s : String) : EvalResult ℚ :=
  (parse ⟨s.data, m, funcs, consts⟩ (evalFuel s) (.expr 0)).map Prod.fst

/-- `ExpressionParser().evaluate(s)`: evaluation against the default
registries. -/
def evaluate (m : MathLib) (s : String) : EvalResult ℚ :=
  evaluateWith m (defaultFunctions m) defaultConstants s

/-! ### Unfolding lemmas for the recursive descent

One lemma per branch of each production, with the branch conditions as
hypotheses; together they let a proof walk the descent step by step. -/

theorem parse_expr (ctx : Ctx) (fuel pos : Nat) (h : fuel ≠ 0) :
    parse ctx fuel (.expr pos) =
      match parse ctx (fuel - 1) (.term pos) with
      | .error e => .error e
      | .ok (v, p) => parse ctx (fuel - 1) (.exprLoop v p) := by
  rw [parse.eq_def]; simp [h]

theorem parse_term (ctx : Ctx) (fuel pos : Nat) (h : fuel ≠ 0) :
    parse ctx fuel (.term pos) =
      match parse ctx (fuel - 1) (.factor pos) with
      | .error e => .error e
      | .ok (v, p) => parse ctx (fuel - 1) (.termLoop v p) := by
  rw [parse.eq_def]; simp [h]

theorem parse_exprLoop_end (ctx : Ctx) (fuel : Nat) (acc : ℚ) (pos : Nat) (h : fuel ≠ 0)
    (hpos : ctx.input.length ≤ pos) :
    parse ctx fuel (.exprLoop acc pos) = .ok (acc, pos) := by
  rw [parse.eq_def]; simp [h, Nat.not_lt.mpr hpos]

theorem parse_exprLoop_stop (ctx : Ctx) (fuel : Nat) (acc : ℚ) (pos : Nat) (h : fuel ≠ 0)
    (hpos : pos < ctx.input.length)
    (hc1 : charAt ctx.input (skipWs ctx.input pos) ≠ '+')
    (hc2 : charAt ctx.input (skipWs ctx.input pos) ≠ '-') :
    parse ctx fuel (.exprLoop acc pos) = .ok (acc, skipWs ctx.input pos) := by
  rw [parse.eq_def]
  by_cases hp : skipWs ctx.input pos < ctx.input.length <;> simp [h, hpos, hp, hc1, hc2]

theorem parse_exprLoop_plus (ctx : Ctx) (fuel : Nat) (acc : ℚ) (pos : Nat) (h : fuel ≠ 0)
    (hpos : pos < ctx.input.length)
    (hp : skipWs ctx.input pos < ctx.input.length)
    (hc : charAt ctx.input (skipWs ctx.input pos) = '+') :
    parse ctx fuel (.exprLoop acc pos) =
      match parse ctx (fuel - 1) (.term (skipWs ctx.input pos + 1)) with
      | .error e => .error e
      | .ok (r, p') =>
          parse ctx (fuel - 1) (.exprLoop (StandardCalculator.add acc r) p') := by
  rw [parse.eq_def]; simp [h, hpos, hp, hc]

theorem parse_exprLoop_minus (ctx : Ctx) (fuel : Nat) (acc : ℚ) (pos : Nat) (h : fuel ≠ 0)
    (hpos : pos < ctx.input.length)
    (hp : skipWs ctx.input pos < ctx.input.length)
    (hc : charAt ctx.input (skipWs ctx.input pos) = '-') :
    parse ctx fuel (.exprLoop acc pos) =
      match parse ctx (fuel - 1) (.term (skipWs ctx.input pos + 1)) with
      | .error e => .error e
      | .ok (r, p') =>
          parse ctx (fuel - 1) (.exprLoop (StandardCalculator.subtract acc r) p') := by
  rw [parse.eq_def]; simp [h, hpos, hp, hc]

theorem parse_termLoop_end (ctx : Ctx) (fuel : Nat) (acc : ℚ) (pos : Nat) (h : fuel ≠ 0)
    (hpos : ctx.input.length ≤ pos) :
    parse ctx fuel (.termLoop acc pos) = .ok (acc, pos) := by
  rw [parse.eq_def]; simp [h, Nat.not_lt.mpr hpos]

theorem parse_termLoop_stop (ctx : Ctx) (fuel : Nat) (acc : ℚ) (pos : Nat) (h : fuel ≠ 0)
    (hpos : pos < ctx.input.length)
    (hc1 : charAt ctx.input (skipWs ctx.input pos) ≠ '*')
    (hc2 : charAt ctx.input (skipWs ctx.input pos) ≠ '/')
    (hc3 : charAt ctx.input (skipWs ctx.input pos) ≠ '%') :
    parse ctx fuel (.termLoop acc pos) = .ok (acc, skipWs ctx.input pos) := by
  rw [parse.eq_def]
  by_cases hp : skipWs ctx.input pos < ctx.input.length <;> simp [h, hpos, hp, hc1, hc2, hc3]

theorem parse_termLoop_mul (ctx : Ctx) (fuel : Nat) (acc : ℚ) (pos : Nat) (h : fuel ≠ 0)
    (hpos : pos < ctx.input.length)
    (hp : skipWs ctx.input pos < ctx.input.length)
    (hc : charAt ctx.input (skipWs ctx.input pos) = '*') :
    parse ctx fuel (.termLoop acc pos) =
      match parse ctx (fuel - 1) (.factor (skipWs ctx.input pos + 1)) with
      | .error e => .error e
      | .ok (r, p') =>
          parse ctx (fuel - 1) (.termLoop (StandardCalculator.multiply acc r) p') := by
  rw [parse.eq_def]; simp [h, hpos, hp, hc]

theorem parse_termLoop_div (ctx : Ctx) (fuel : Nat) (acc : ℚ) (pos : Nat) (h : fuel ≠ 0)
    (hpos : pos < ctx.input.length)
    (hp : skipWs ctx.input pos < ctx.input.length)
    (hc : charAt ctx.input (skipWs ctx.input pos) = '/') :
    parse ctx fuel (.termLoop acc pos) =
      match parse ctx (fuel - 1) (.factor (skipWs ctx.input pos + 1)) with
      | .error e => .error e
      | .ok (r, p') =>
          match StandardCalculator.divide acc r with
          | .error e => .error e
          | .ok acc' => parse ctx (fuel - 1) (.termLoop acc' p') := by
  rw [parse.eq_def]; simp [h, hpos, hp, hc]

theorem parse_termLoop_mod (ctx : Ctx) (fuel : Nat) (acc : ℚ) (pos : Nat) (h : fuel ≠ 0)
    (hpos : pos < ctx.input.length)
    (hp : skipWs ctx.input pos < ctx.input.length)
    (hc : charAt ctx.input (skipWs ctx.input pos) = '%') :
    parse ctx fuel (.termLoop acc pos) =
      match parse ctx (fuel - 1) (.factor (skipWs ctx.input pos + 1)) with
      | .error e => .error e
      | .ok (r, p') =>
          match StandardCalculator.modulo acc r with
          | .error e => .error e
          | .ok acc' => parse ctx (fuel - 1) (.termLoop acc' p') := by
  rw [parse.eq_def]; simp [h, hpos, hp, hc]

theorem parse_factor_end (ctx : Ctx) (fuel pos : Nat) (h : fuel ≠ 0)
    (hp : ctx.input.length ≤ skipWs ctx.input pos) :
    parse ctx fuel (.factor pos) = .error .unexpectedEnd := by
  rw [parse.eq_def]; simp [h, Nat.not_lt.mpr hp]

theorem parse_factor_neg (ctx : Ctx) (fuel pos : Nat) (h : fuel ≠ 0)
    (hp : skipWs ctx.input pos < ctx.input.length)
    (hc : charAt ctx.input (skipWs ctx.input pos) = '-') :
    parse ctx fuel (.factor pos) =
      match parse ctx (fuel - 1) (.factor (skipWs ctx.input pos + 1)) with
      | .error e => .error e
      | .ok (v, p') => .ok (-v, p') := by
  rw [parse.eq_def]; simp [h, hp, hc]

theorem parse_factor_plus (ctx : Ctx) (fuel pos : Nat) (h : fuel ≠ 0)
    (hp : skipWs ctx.input pos < ctx.input.length)
    (hc : charAt ctx.input (skipWs ctx.input pos) = '+') :
    parse ctx fuel (.factor pos) = parse ctx (fuel - 1) (.factor (skipWs ctx.input pos + 1)) := by
  rw [parse.eq_def]
  simp [h, hp, hc]
  cases parse ctx (fuel - 1) (.factor (skipWs ctx.input pos + 1)) with
  | error e => rfl
  | ok vp => rfl

theorem parse_factor_paren (ctx : Ctx) (fuel pos : Nat) (h : fuel ≠ 0)
    (hp : skipWs ctx.input pos < ctx.input.length)
    (hc : charAt ctx.input (skipWs ctx.input pos) = '(') :
    parse ctx fuel (.factor pos) =
      match parse ctx (fuel - 1) (.expr (skipWs ctx.input pos + 1)) with
      | .error e => .error e
      | .ok (v, p1) =>
          if skipWs ctx.input p1 < ctx.input.length ∧ charAt ctx.input (skipWs ctx.input p1) = ')' then
            if skipWs ctx.input (skipWs ctx.input p1 + 1) < ctx.input.length ∧
                charAt ctx.input (skipWs ctx.input (skipWs ctx.input p1 + 1)) = '^' then
              match parse ctx (fuel - 1) (.factor (skipWs ctx.input (skipWs ctx.input p1 + 1) + 1)) with
              | .error e => .error e
              | .ok (ex, p4) => .ok (StandardCalculator.power ctx.mlib v ex, p4)
            else .ok (v, skipWs ctx.input (skipWs ctx.input p1 + 1))
          else .error .mismatchedParens := by
  rw [parse.eq_def]; simp [h, hp, hc]

theorem parse_factor_ident (ctx : Ctx) (fuel pos : Nat) (h : fuel ≠ 0)
    (hp : skipWs ctx.input pos < ctx.input.length)
    (hc1 : charAt ctx.input (skipWs ctx.input pos) ≠ '-')
    (hc2 : charAt ctx.input (skipWs ctx.input pos) ≠ '+')
    (hc3 : charAt ctx.input (skipWs ctx.input pos) ≠ '(')
    (ha : isAlphaChar (charAt ctx.input (skipWs ctx.input pos)) = true) :
    parse ctx fuel (.factor pos) =
      (if skipWs ctx.input (identEnd ctx.input (skipWs ctx.input pos)) < ctx.input.length ∧
          charAt ctx.input (skipWs ctx.input (identEnd ctx.input (skipWs ctx.input pos))) = '(' then
        match parse ctx (fuel - 1)
            (.expr (skipWs ctx.input (identEnd ctx.input (skipWs ctx.input pos)) + 1)) with
        | .error e => .error e
        | .ok (arg, p3) =>
            if skipWs ctx.input p3 < ctx.input.length ∧
                charAt ctx.input (skipWs ctx.input p3) = ')' then
              match lookupReg ctx.funcs (identName ctx.input (skipWs ctx.input pos)) with
              | none => .error (.unknownFunction (identName ctx.input (skipWs ctx.input pos)))
              | some f =>
                  match f arg with
                  | .error e => .error e
                  | .ok v => .ok (v, skipWs ctx.input p3 + 1)
            else .error .mismatchedParensFunc
      else
        match lookupReg ctx.consts (identName ctx.input (skipWs ctx.input pos)) with
        | some v => .ok (v, skipWs ctx.input (identEnd ctx.input (skipWs ctx.input pos)))
        | none => .error (.unknownIdentifier (identName ctx.input (skipWs ctx.input pos)))) := by
  rw [parse.eq_def]; simp [h, hp, hc1, hc2, hc3, ha]

theorem parse_factor_num (ctx : Ctx) (fuel pos : Nat) (h : fuel ≠ 0)
    (hp : skipWs ctx.input pos < ctx.input.length)
    (hc1 : charAt ctx.input (skipWs ctx.input pos) ≠ '-')
    (hc2 : charAt ctx.input (skipWs ctx.input pos) ≠ '+')
    (hc3 : charAt ctx.input (skipWs ctx.input pos) ≠ '(')
    (ha : isAlphaChar (charAt ctx.input (skipWs ctx.input pos)) = false) :
    parse ctx fuel (.factor pos) =
      match parseNumber ctx.input (skipWs ctx.input pos) with
      | .error e => .error e
      | .ok (v, p1) =>
          if skipWs ctx.input p1 < ctx.input.length ∧
              charAt ctx.input (skipWs ctx.input p1) = '^' then
            match parse ctx (fuel - 1) (.factor (skipWs ctx.input p1 + 1)) with
            | .error e => .error e
            | .ok (ex, p3) => .ok (StandardCalculator.power ctx.mlib v ex, p3)
          else .ok (v, skipWs ctx.input p1) := by
  rw [parse.eq_def]; simp [h, hp, hc1, hc2, hc3, ha]



/-! ### C4 apparatus: flat additive/multiplicative expressions -/

/-- The multiplicative operators of `parse_term`. -/
inductive MulOp where
  | times
  | divide
  | modulo
deriving DecidableEq, Repr

/-- The additive operators of `parse_expression`. -/
inductive AddOp where
  | plus
  | minus
deriving DecidableEq, Repr

/-- A multiplicative-tier run: a leading literal followed by `* / %`
combinations. -/
structure SimpleTerm where
  first : Nat
  rest : List (MulOp × Nat)

/-- A well-formed flat expression of numeric literals and the five binary
operators: an additive combination of multiplicative runs. -/
structure SimpleExpr where
  first : SimpleTerm
  rest : List (AddOp × SimpleTerm)

def mulOpChar : MulOp → Char
  | .times => '*'
  | .divide => '/'
  | .modulo => '%'

def addOpChar : AddOp → Char
  | .plus => '+'
  | .minus => '-'

/-- The decimal digit characters. -/
def digitChar : Nat → Char
  | 0 => '0'
  | 1 => '1'
  | 2 => '2'
  | 3 => '3'
  | 4 => '4'
  | 5 => '5'
  | 6 => '6'
  | 7 => '7'
  | 8 => '8'
  | _ => '9'

/-- Decimal rendering of a natural number (most significant digit first). -/
def natChars (n : Nat) : List Char :=
  if n < 10 then [digitChar n] else natChars (n / 10) ++ [digitChar (n % 10)]
termination_by n
decreasing_by exact Nat.div_lt_self (by omega) (by omega)

def renderTermTail : List (MulOp × Nat) → List Char
  | [] => []
  | (op, n) :: t => mulOpChar op :: (natChars n ++ renderTermTail t)

/-- Rendering of a multiplicative run. -/
def renderTerm (t : SimpleTerm) : List Char :=
  natChars t.first ++ renderTermTail t.rest

def renderExprTail : List (AddOp × SimpleTerm) → List Char
  | [] => []
  | (op, tm) :: t => addOpChar op :: (renderTerm tm ++ renderExprTail t)

/-- Rendering of a flat expression (no whitespace). -/
def renderExpr (e : SimpleExpr) : List Char :=
  renderTerm e.first ++ renderExprTail e.rest

/-- Modelled from the spec: one multiplicative step, applied immediately
(left-to-right), with division and modulo by zero fatal. -/
def applyMulOp (acc : ℚ) : MulOp → ℚ → EvalResult ℚ
  | .times, v => .ok (StandardCalculator.multiply acc v)
  | .divide, v => StandardCalculator.divide acc v
  | .modulo, v => StandardCalculator.modulo acc v

/-- Modelled from the spec: the left fold of a multiplicative run — each
operator is applied to the accumulated left operand at once. -/
def foldMuls (acc : ℚ) : List (MulOp × Nat) → EvalResult ℚ
  | [] => .ok acc
  | (op, n) :: t =>
      match applyMulOp acc op (n : ℚ) with
      | .error e => .error e
      | .ok a => foldMuls a t

/-- Modelled from the spec: the value of a multiplicative run. -/
def specTerm (t : SimpleTerm) : EvalResult ℚ :=
  foldMuls (t.first : ℚ) t.rest

def applyAddOp (acc : ℚ) : AddOp → ℚ → ℚ
  | .plus, v => StandardCalculator.add acc v
  | .minus, v => StandardCalculator.subtract acc v

/-- Modelled from the spec: the left fold of the additive tier; each term
is evaluated left-to-right before being folded in. -/
def foldAdds (acc : ℚ) : List (AddOp × SimpleTerm) → EvalResult ℚ
  | [] => .ok acc
  | (op, tm) :: t =>
      match specTerm tm with
      | .error e => .error e
      | .ok v => foldAdds (applyAddOp acc op v) t

/-- Modelled from the spec (§8, "left-to-right, left-associative arithmetic
with `*`,`/`,`%` binding tighter than `+`,`-`"): the reference semantics of
a flat expression. -/
def specExpr (e : SimpleExpr) : EvalResult ℚ :=
  match specTerm e.first with
  | .error e => .error e
  | .ok v => foldAdds v e.rest


theorem digitChar_digit (d : Nat) : isDigitChar (digitChar d) = true := by
  unfold digitChar
  split <;> decide

theorem natChars_ne_nil (n : Nat) : natChars n ≠ [] := by
  unfold natChars
  split
  · simp
  · simp

theorem natChars_digits (n : Nat) : ∀ c ∈ natChars n, isDigitChar c = true := by
  induction n using Nat.strong_induction_on with
  | _ n ih =>
      unfold natChars
      split
      · simp [digitChar_digit]
      · intro c hc
        simp only [List.mem_append, List.mem_singleton] at hc
        rcases hc with hc | hc
        · exact ih (n / 10) (Nat.div_lt_self (by omega) (by omega)) c hc
        · subst hc; exact digitChar_digit _

theorem digitsVal_append_singleton (l : List Char) (c : Char) :
    digitsVal (l ++ [c]) = 10 * digitsVal l + digitVal c := by
  simp [digitsVal, List.foldl_append]

theorem digitVal_digitChar (d : Nat) (h : d < 10) : digitVal (digitChar d) = d := by
  interval_cases d <;> decide

theorem digitsVal_natChars (n : Nat) : digitsVal (natChars n) = n := by
  induction n using Nat.strong_induction_on with
  | _ n ih =>
      unfold natChars
      split
      · next h =>
          simp [digitsVal, digitVal_digitChar n h]
      · next h =>
          rw [digitsVal_append_singleton, ih (n / 10) (Nat.div_lt_self (by omega) (by omega)),
            digitVal_digitChar _ (Nat.mod_lt _ (by omega))]
          omega

theorem isDigitChar_not_space {c : Char} (h : isDigitChar c = true) : isSpaceChar c = false := by
  simp only [isDigitChar, Bool.and_eq_true, decide_eq_true_eq] at h
  simp only [isSpaceChar]
  rcases h with ⟨h1, h2⟩
  by_contra hs
  simp only [Bool.or_eq_true, decide_eq_true_eq, Bool.not_eq_false] at hs
  rcases hs with ((((hs | hs) | hs) | hs) | hs) | hs <;> subst hs <;> simp_all

theorem isDigitChar_not_alpha {c : Char} (h : isDigitChar c = true) : isAlphaChar c = false := by
  simp only [isDigitChar, Bool.and_eq_true, decide_eq_true_eq] at h
  simp only [isAlphaChar, Bool.or_eq_false_iff, Bool.and_eq_false_iff,
    decide_eq_false_iff_not, Nat.not_le]
  omega

theorem isDigitChar_ne_char {c : Char} (h : isDigitChar c = true) (d : Char)
    (hd : d.toNat < 48 ∨ 57 < d.toNat) : c ≠ d := by
  intro he
  subst he
  simp only [isDigitChar, Bool.and_eq_true, decide_eq_true_eq] at h
  omega


/-- Boundary condition after a rendered literal: the following characters
cannot extend the numeric token, are not whitespace, and do not begin a
power operator. -/
def litBoundary : List Char → Prop
  | [] => True
  | c :: _ => isDigitChar c = false ∧ c ≠ '.' ∧ c ≠ 'e' ∧ c ≠ 'E' ∧
      isSpaceChar c = false ∧ c ≠ '^'

theorem skipWs_at {input : List Char} {pos : Nat} {c : Char} {t : List Char}
    (h : input.drop pos = c :: t) (hc : isSpaceChar c = false) :
    skipWs input pos = pos := by
  unfold skipWs
  rw [h]
  simp [countWhile, hc]

theorem skipWs_nil {input : List Char} {pos : Nat} (h : input.drop pos = []) :
    skipWs input pos = pos := by
  unfold skipWs
  rw [h]
  simp [countWhile]

theorem charAt_at {input : List Char} {pos : Nat} {c : Char} {t : List Char}
    (h : input.drop pos = c :: t) : charAt input pos = c := by
  unfold charAt
  rw [h]
  rfl

theorem lt_length_at {input : List Char} {pos : Nat} {c : Char} {t : List Char}
    (h : input.drop pos = c :: t) : pos < input.length := by
  have := congrArg List.length h
  simp [List.length_drop] at this
  omega

theorem drop_add {input : List Char} {pos k : Nat} :
    input.drop (pos + k) = (input.drop pos).drop k := by
  rw [List.drop_drop, Nat.add_comm]

theorem takeWhile_all {p : Char → Bool} {l : List Char} (h : ∀ c ∈ l, p c = true) :
    l.takeWhile p = l := by
  induction l with
  | nil => rfl
  | cons c t ih =>
      simp only [List.takeWhile_cons, h c (by simp)]
      simp [ih fun d hd => h d (by simp [hd])]

theorem dropWhile_all {p : Char → Bool} {l : List Char} (h : ∀ c ∈ l, p c = true) :
    l.dropWhile p = [] := by
  induction l with
  | nil => rfl
  | cons c t ih =>
      simp only [List.dropWhile_cons, h c (by simp)]
      simp [ih fun d hd => h d (by simp [hd])]

theorem scanMantissa_digits {ds : List Char} (hd : ∀ c ∈ ds, isDigitChar c = true)
    {rest : List Char} (hr : litBoundary rest) (b : Bool) :
    scanMantissa (ds ++ rest) b = .ok ds.length := by
  induction ds generalizing b with
  | nil =>
      cases rest with
      | nil => rfl
      | cons c t =>
          obtain ⟨h1, h2, _⟩ := hr
          simp [scanMantissa, h1, h2]
  | cons d ds ih =>
      have hdd : isDigitChar d = true := hd d (by simp)
      have hne : d ≠ '.' := isDigitChar_ne_char hdd '.' (by left; decide)
      simp only [List.cons_append, scanMantissa, hne, if_false, hdd, if_true, List.append_eq]
      rw [ih (fun c hc => hd c (by simp [hc])) b]
      rfl

theorem scanExpPart_boundary {rest : List Char} (hr : litBoundary rest) :
    scanExpPart rest = 0 := by
  cases rest with
  | nil => rfl
  | cons c t =>
      obtain ⟨_, _, h3, h4, _⟩ := hr
      simp [scanExpPart, h3, h4]

theorem stodQ_natChars (n : Nat) : stodQ (natChars n) = some (n : ℚ) := by
  have hd := natChars_digits n
  unfold stodQ
  rw [takeWhile_all hd, dropWhile_all hd]
  simp only [List.isEmpty_iff, natChars_ne_nil, false_and, if_false]
  simp [decValue, digitsVal_natChars, show digitsVal [] = 0 from rfl, natChars_ne_nil n]

theorem parseNumber_render {input : List Char} {pos n : Nat} {rest : List Char}
    (h : input.drop pos = natChars n ++ rest) (hb : litBoundary rest) :
    parseNumber input pos = .ok ((n : ℚ), pos + (natChars n).length) := by
  obtain ⟨d, ds, hds⟩ := List.exists_cons_of_ne_nil (natChars_ne_nil n)
  have hdrop : input.drop pos = d :: (ds ++ rest) := by rw [h, hds]; rfl
  have hdd : isDigitChar d = true := natChars_digits n d (by rw [hds]; simp)
  have hsw : skipWs input pos = pos := skipWs_at hdrop (isDigitChar_not_space hdd)
  have hlt : pos < input.length := lt_length_at hdrop
  have hk : 1 ≤ (natChars n).length := by rw [hds]; simp
  have hdrop2 : input.drop (pos + (natChars n).length) = rest := by
    rw [drop_add, h, List.drop_left]
  have hne : ¬(pos = pos + (natChars n).length) := by omega
  have htake : (natChars n ++ rest).take (pos + (natChars n).length - pos) = natChars n := by
    have he : pos + (natChars n).length - pos = (natChars n).length := by omega
    rw [he, List.take_left]
  unfold parseNumber
  rw [hsw, if_pos hlt, h, scanMantissa_digits (natChars_digits n) hb]
  simp only [hdrop2, scanExpPart_boundary hb, Nat.add_zero, hne, if_false, htake,
    stodQ_natChars]


theorem parse_factor_lit {ctx : Ctx} {fuel pos n : Nat} {rest : List Char}
    (hf : fuel ≠ 0)
    (h : ctx.input.drop pos = natChars n ++ rest) (hb : litBoundary rest) :
    parse ctx fuel (.factor pos) = .ok ((n : ℚ), pos + (natChars n).length) := by
  obtain ⟨d, ds, hds⟩ := List.exists_cons_of_ne_nil (natChars_ne_nil n)
  have hdrop : ctx.input.drop pos = d :: (ds ++ rest) := by rw [h, hds]; rfl
  have hdd : isDigitChar d = true := natChars_digits n d (by rw [hds]; simp)
  have hsw : skipWs ctx.input pos = pos := skipWs_at hdrop (isDigitChar_not_space hdd)
  have hlt : pos < ctx.input.length := lt_length_at hdrop
  have hca : charAt ctx.input pos = d := charAt_at hdrop
  rw [parse_factor_num ctx fuel pos hf (by rw [hsw]; exact hlt)
    (by rw [hsw, hca]; exact isDigitChar_ne_char hdd '-' (by left; decide))
    (by rw [hsw, hca]; exact isDigitChar_ne_char hdd '+' (by left; decide))
    (by rw [hsw, hca]; exact isDigitChar_ne_char hdd '(' (by left; decide))
    (by rw [hsw, hca]; exact isDigitChar_not_alpha hdd)]
  rw [hsw, parseNumber_render h hb]
  have hdrop2 : ctx.input.drop (pos + (natChars n).length) = rest := by
    rw [drop_add, h, List.drop_left]
  cases hrest : rest with
  | nil =>
      have hsw2 : skipWs ctx.input (pos + (natChars n).length) = pos + (natChars n).length :=
        skipWs_nil (by rw [hdrop2, hrest])
      have hge : ctx.input.length ≤ pos + (natChars n).length := by
        have := congrArg List.length hdrop2
        rw [hrest] at this
        simp [List.length_drop] at this
        omega
      simp only [hsw2]
      rw [if_neg (by omega)]
  | cons c t =>
      rw [hrest] at hb hdrop2
      obtain ⟨_, _, _, _, hsp, hcar⟩ := hb
      have hsw2 : skipWs ctx.input (pos + (natChars n).length) = pos + (natChars n).length :=
        skipWs_at hdrop2 hsp
      have hca2 : charAt ctx.input (pos + (natChars n).length) = c := charAt_at hdrop2
      simp only [hsw2, hca2]
      rw [if_neg (by simp [hcar])]

/-- The characters after a rendered run of a term belong to the additive
tier: the empty suffix or one of `+`, `-`. -/
def isAddTail : List Char → Prop
  | [] => True
  | c :: _ => c = '+' ∨ c = '-'

theorem litBoundary_of_addTail {rest : List Char} (h : isAddTail rest) : litBoundary rest := by
  cases rest with
  | nil => trivial
  | cons c t =>
      rcases h with h | h <;> subst h <;> exact ⟨by decide, by decide, by decide, by decide,
        by decide, by decide⟩

theorem litBoundary_termTail (ms : List (MulOp × Nat)) {rest : List Char}
    (h : isAddTail rest) : litBoundary (renderTermTail ms ++ rest) := by
  cases ms with
  | nil => exact litBoundary_of_addTail h
  | cons p t =>
      obtain ⟨op, n⟩ := p
      cases op <;> exact ⟨by decide, by decide, by decide, by decide, by decide, by decide⟩


theorem mulOpChar_not_space (op : MulOp) : isSpaceChar (mulOpChar op) = false := by
  cases op <;> decide

theorem addOpChar_cases (c : Char) (h : c = '+' ∨ c = '-') :
    isSpaceChar c = false ∧ c ≠ '*' ∧ c ≠ '/' ∧ c ≠ '%' := by
  rcases h with h | h <;> subst h <;> exact ⟨by decide, by decide, by decide, by decide⟩

theorem parse_termLoop_render {ctx : Ctx} (ms : List (MulOp × Nat)) (acc : ℚ)
    (pos fuel : Nat) {rest : List Char}
    (h : ctx.input.drop pos = renderTermTail ms ++ rest) (hr : isAddTail rest)
    (hf : ms.length < fuel) :
    parse ctx fuel (.termLoop acc pos) =
      (foldMuls acc ms).map (fun v => (v, pos + (renderTermTail ms).length)) := by
  induction ms generalizing acc pos fuel with
  | nil =>
      have hf0 : fuel ≠ 0 := by simp at hf; omega
      simp only [renderTermTail, List.nil_append] at h
      simp only [foldMuls, renderTermTail, Except.map, List.length_nil, Nat.add_zero]
      cases hrest : rest with
      | nil =>
          rw [hrest] at h
          have hge : ctx.input.length ≤ pos := by
            have := congrArg List.length h
            simp [List.length_drop] at this
            omega
          exact parse_termLoop_end ctx fuel acc pos hf0 hge
      | cons c t =>
          rw [hrest] at h hr
          obtain ⟨hsp, h1, h2, h3⟩ := addOpChar_cases c hr
          have hsw : skipWs ctx.input pos = pos := skipWs_at h hsp
          have hca : charAt ctx.input pos = c := charAt_at h
          rw [parse_termLoop_stop ctx fuel acc pos hf0 (lt_length_at h)
            (by rw [hsw, hca]; exact h1) (by rw [hsw, hca]; exact h2)
            (by rw [hsw, hca]; exact h3), hsw]
  | cons p ms ih =>
      obtain ⟨op, n⟩ := p
      have hfl : ((op, n) :: ms).length = ms.length + 1 := by simp
      have hf0 : fuel ≠ 0 := by omega
      have hdrop : ctx.input.drop pos =
          mulOpChar op :: (natChars n ++ (renderTermTail ms ++ rest)) := by
        rw [h]; simp [renderTermTail]
      have hsw : skipWs ctx.input pos = pos := skipWs_at hdrop (mulOpChar_not_space op)
      have hca : charAt ctx.input pos = mulOpChar op := charAt_at hdrop
      have hlt : pos < ctx.input.length := lt_length_at hdrop
      have hdrop1 : ctx.input.drop (pos + 1) = natChars n ++ (renderTermTail ms ++ rest) := by
        rw [drop_add, hdrop]; rfl
      have hfacn := @parse_factor_lit ctx (fuel - 1) (pos + 1)
        n _ (by omega) hdrop1 (litBoundary_termTail ms hr)
      have hdrop2 : ctx.input.drop (pos + 1 + (natChars n).length) =
          renderTermTail ms ++ rest := by
        rw [drop_add, hdrop1, List.drop_left]
      have hlen : (renderTermTail ((op, n) :: ms)).length =
          1 + (natChars n).length + (renderTermTail ms).length := by
        simp [renderTermTail]
        omega
      cases op with
      | times =>
          rw [parse_termLoop_mul ctx fuel acc pos hf0 hlt (by rw [hsw]; exact hlt)
            (by rw [hsw, hca]; rfl), hsw, hfacn]
          simp only []
          rw [ih (StandardCalculator.multiply acc (n : ℚ)) (pos + 1 + (natChars n).length)
            (fuel - 1) hdrop2 (by omega)]
          simp only [foldMuls, applyMulOp]
          cases foldMuls (StandardCalculator.multiply acc (n : ℚ)) ms <;>
            simp [Except.map, hlen] <;> omega
      | divide =>
          rw [parse_termLoop_div ctx fuel acc pos hf0 hlt (by rw [hsw]; exact hlt)
            (by rw [hsw, hca]; rfl), hsw, hfacn]
          simp only []
          simp only [foldMuls, applyMulOp]
          cases hdv : StandardCalculator.divide acc (n : ℚ) with
          | error e => simp [Except.map]
          | ok acc' =>
              simp only []
              rw [ih acc' (pos + 1 + (natChars n).length) (fuel - 1) hdrop2 (by omega)]
              cases foldMuls acc' ms <;> simp [Except.map, hlen] <;> omega
      | modulo =>
          rw [parse_termLoop_mod ctx fuel acc pos hf0 hlt (by rw [hsw]; exact hlt)
            (by rw [hsw, hca]; rfl), hsw, hfacn]
          simp only []
          simp only [foldMuls, applyMulOp]
          cases hdv : StandardCalculator.modulo acc (n : ℚ) with
          | error e => simp [Except.map]
          | ok acc' =>
              simp only []
              rw [ih acc' (pos + 1 + (natChars n).length) (fuel - 1) hdrop2 (by omega)]
              cases foldMuls acc' ms <;> simp [Except.map, hlen] <;> omega


theorem parse_term_render {ctx : Ctx} (t : SimpleTerm) (pos fuel : Nat) {rest : List Char}
    (h : ctx.input.drop pos = renderTerm t ++ rest) (hr : isAddTail rest)
    (hf : t.rest.length + 1 < fuel) :
    parse ctx fuel (.term pos) =
      (specTerm t).map (fun v => (v, pos + (renderTerm t).length)) := by
  have hd1 : ctx.input.drop pos = natChars t.first ++ (renderTermTail t.rest ++ rest) := by
    rw [h]; simp [renderTerm]
  have hfac := @parse_factor_lit ctx (fuel - 1) pos t.first _
    (by omega) hd1 (litBoundary_termTail t.rest hr)
  have hd2 : ctx.input.drop (pos + (natChars t.first).length) = renderTermTail t.rest ++ rest := by
    rw [drop_add, hd1, List.drop_left]
  rw [parse_term ctx fuel pos (by omega), hfac]
  simp only []
  rw [parse_termLoop_render t.rest ((t.first : ℚ)) (pos + (natChars t.first).length)
    (fuel - 1) hd2 hr (by omega)]
  unfold specTerm
  cases foldMuls ((t.first : ℚ)) t.rest <;> simp [Except.map, renderTerm] <;> omega

/-- Fuel needed by the additive loop over a rendered expression tail. -/
def tailNeed : List (AddOp × SimpleTerm) → Nat
  | [] => 1
  | (_, tm) :: tl => Nat.max (tm.rest.length + 2) (tailNeed tl) + 1

theorem addOpChar_mem (op : AddOp) : addOpChar op = '+' ∨ addOpChar op = '-' := by
  cases op
  · left; rfl
  · right; rfl

theorem isAddTail_renderExprTail (es : List (AddOp × SimpleTerm)) :
    isAddTail (renderExprTail es) := by
  cases es with
  | nil => trivial
  | cons p t =>
      obtain ⟨op, tm⟩ := p
      exact addOpChar_mem op

theorem parse_exprLoop_render {ctx : Ctx} (es : List (AddOp × SimpleTerm)) (acc : ℚ)
    (pos fuel : Nat)
    (h : ctx.input.drop pos = renderExprTail es)
    (hf : tailNeed es ≤ fuel) :
    parse ctx fuel (.exprLoop acc pos) =
      (foldAdds acc es).map (fun v => (v, pos + (renderExprTail es).length)) := by
  induction es generalizing acc pos fuel with
  | nil =>
      have hf0 : fuel ≠ 0 := by simp [tailNeed] at hf; omega
      simp only [renderExprTail] at h
      have hge : ctx.input.length ≤ pos := by
        have := congrArg List.length h
        simp [List.length_drop] at this
        omega
      simp only [foldAdds, renderExprTail, Except.map, List.length_nil, Nat.add_zero]
      exact parse_exprLoop_end ctx fuel acc pos hf0 hge
  | cons p es ih =>
      obtain ⟨op, tm⟩ := p
      have htn : tailNeed ((op, tm) :: es) = Nat.max (tm.rest.length + 2) (tailNeed es) + 1 :=
        rfl
      have hmax1 : tm.rest.length + 2 ≤ Nat.max (tm.rest.length + 2) (tailNeed es) :=
        Nat.le_max_left _ _
      have hmax2 : tailNeed es ≤ Nat.max (tm.rest.length + 2) (tailNeed es) :=
        Nat.le_max_right _ _
      have hf0 : fuel ≠ 0 := by omega
      have hdrop : ctx.input.drop pos =
          addOpChar op :: (renderTerm tm ++ renderExprTail es) := by
        rw [h]; simp [renderExprTail]
      have hspace : isSpaceChar (addOpChar op) = false := by cases op <;> decide
      have hsw : skipWs ctx.input pos = pos := skipWs_at hdrop hspace
      have hca : charAt ctx.input pos = addOpChar op := charAt_at hdrop
      have hlt : pos < ctx.input.length := lt_length_at hdrop
      have hdrop1 : ctx.input.drop (pos + 1) = renderTerm tm ++ renderExprTail es := by
        rw [drop_add, hdrop]; rfl
      have hterm := @parse_term_render ctx tm (pos + 1) (fuel - 1) _ hdrop1
        (isAddTail_renderExprTail es) (by omega)
      have hdrop2 : ctx.input.drop (pos + 1 + (renderTerm tm).length) = renderExprTail es := by
        rw [drop_add, hdrop1, List.drop_left]
      have hlen : (renderExprTail ((op, tm) :: es)).length =
          1 + (renderTerm tm).length + (renderExprTail es).length := by
        simp [renderExprTail]
        omega
      cases op with
      | plus =>
          rw [parse_exprLoop_plus ctx fuel acc pos hf0 hlt (by rw [hsw]; exact hlt)
            (by rw [hsw, hca]; rfl), hsw, hterm]
          simp only [foldAdds]
          cases hsp : specTerm tm with
          | error e => simp [Except.map]
          | ok v =>
              simp only [Except.map, applyAddOp]
              rw [ih (StandardCalculator.add acc v) (pos + 1 + (renderTerm tm).length)
                (fuel - 1) hdrop2 (by omega)]
              cases foldAdds (StandardCalculator.add acc v) es <;>
                simp [Except.map, hlen] <;> omega
      | minus =>
          rw [parse_exprLoop_minus ctx fuel acc pos hf0 hlt (by rw [hsw]; exact hlt)
            (by rw [hsw, hca]; rfl), hsw, hterm]
          simp only [foldAdds]
          cases hsp : specTerm tm with
          | error e => simp [Except.map]
          | ok v =>
              simp only [Except.map, applyAddOp]
              rw [ih (StandardCalculator.subtract acc v) (pos + 1 + (renderTerm tm).length)
                (fuel - 1) hdrop2 (by omega)]
              cases foldAdds (StandardCalculator.subtract acc v) es <;>
                simp [Except.map, hlen] <;> omega

/-- Fuel needed to parse a rendered flat expression. -/
def exprNeed (e : SimpleExpr) : Nat :=
  Nat.max (e.first.rest.length + 2) (tailNeed e.rest) + 1

theorem parse_expr_render {ctx : Ctx} (e : SimpleExpr) (pos fuel : Nat)
    (h : ctx.input.drop pos = renderExpr e)
    (hf : exprNeed e ≤ fuel) :
    parse ctx fuel (.expr pos) =
      (specExpr e).map (fun v => (v, pos + (renderExpr e).length)) := by
  have hne : exprNeed e = Nat.max (e.first.rest.length + 2) (tailNeed e.rest) + 1 := rfl
  have hmax1 : e.first.rest.length + 2 ≤ Nat.max (e.first.rest.length + 2) (tailNeed e.rest) :=
    Nat.le_max_left _ _
  have hmax2 : tailNeed e.rest ≤ Nat.max (e.first.rest.length + 2) (tailNeed e.rest) :=
    Nat.le_max_right _ _
  have hd1 : ctx.input.drop pos = renderTerm e.first ++ renderExprTail e.rest := by
    rw [h]; rfl
  have hterm := @parse_term_render ctx e.first pos (fuel - 1) _ hd1
    (isAddTail_renderExprTail e.rest) (by omega)
  have hd2 : ctx.input.drop (pos + (renderTerm e.first).length) = renderExprTail e.rest := by
    rw [drop_add, hd1, List.drop_left]
  rw [parse_expr ctx fuel pos (by omega), hterm]
  unfold specExpr
  cases hsp : specTerm e.first with
  | error er => simp [Except.map]
  | ok v =>
      simp only [Except.map]
      rw [parse_exprLoop_render e.rest v (pos + (renderTerm e.first).length)
        (fuel - 1) hd2 (by omega)]
      have hlen : (renderExpr e).length =
          (renderTerm e.first).length + (renderExprTail e.rest).length := by
        simp [renderExpr]
      cases foldAdds v e.rest <;> simp [Except.map, hlen] <;> omega


theorem natChars_len_pos (n : Nat) : 1 ≤ (natChars n).length := by
  cases hl : natChars n with
  | nil => exact absurd hl (natChars_ne_nil n)
  | cons c t => simp

theorem renderTermTail_len_ge (ms : List (MulOp × Nat)) :
    ms.length ≤ (renderTermTail ms).length := by
  induction ms with
  | nil => simp [renderTermTail]
  | cons p t ih =>
      obtain ⟨op, n⟩ := p
      have := natChars_len_pos n
      simp only [renderTermTail, List.length_cons, List.length_append]
      omega

theorem renderTerm_len_ge (t : SimpleTerm) :
    t.rest.length + 1 ≤ (renderTerm t).length := by
  have h1 := natChars_len_pos t.first
  have h2 := renderTermTail_len_ge t.rest
  simp only [renderTerm, List.length_append]
  omega

theorem tailNeed_le (es : List (AddOp × SimpleTerm)) :
    tailNeed es ≤ 4 * (renderExprTail es).length + 1 := by
  induction es with
  | nil => simp [tailNeed, renderExprTail]
  | cons p t ih =>
      obtain ⟨op, tm⟩ := p
      have h1 := renderTerm_len_ge tm
      have hlen : (renderExprTail ((op, tm) :: t)).length =
          1 + (renderTerm tm).length + (renderExprTail t).length := by
        simp [renderExprTail]
        omega
      have hm : Nat.max (tm.rest.length + 2) (tailNeed t) ≤
          4 * (renderExprTail ((op, tm) :: t)).length := by
        apply Nat.max_le.mpr
        constructor
        · omega
        · omega
      calc tailNeed ((op, tm) :: t)
          = Nat.max (tm.rest.length + 2) (tailNeed t) + 1 := rfl
        _ ≤ 4 * (renderExprTail ((op, tm) :: t)).length + 1 := by omega

theorem exprNeed_le (e : SimpleExpr) : exprNeed e ≤ 4 * (renderExpr e).length + 8 := by
  have h1 := renderTerm_len_ge e.first
  have h2 := tailNeed_le e.rest
  have hlen : (renderExpr e).length =
      (renderTerm e.first).length + (renderExprTail e.rest).length := by
    simp [renderExpr]
  have hm : Nat.max (e.first.rest.length + 2) (tailNeed e.rest) ≤
      4 * (renderExpr e).length + 7 := by
    apply Nat.max_le.mpr
    constructor
    · omega
    · omega
  calc exprNeed e = Nat.max (e.first.rest.length + 2) (tailNeed e.rest) + 1 := rfl
    _ ≤ 4 * (renderExpr e).length + 8 := by omega

/-- The parser meets the spec semantics on every rendered flat
expression. -/
theorem evaluate_renderExpr (m : MathLib) (e : SimpleExpr) :
    evaluate m (String.mk (renderExpr e)) = specExpr e := by
  have hdata : (String.mk (renderExpr e)).data = renderExpr e := rfl
  have hlen : (String.mk (renderExpr e)).length = (renderExpr e).length := rfl
  unfold evaluate evaluateWith
  rw [@parse_expr_render ⟨(String.mk (renderExpr e)).data, m, defaultFunctions m,
      defaultConstants⟩ e 0 (evalFuel (String.mk (renderExpr e)))
    (by simp)
    (by simpa [evalFuel, String.length] using exprNeed_le e)]
  cases specExpr e <;> simp [Except.map]


theorem countWhile_le (p : Char → Bool) (l : List Char) : countWhile p l ≤ l.length := by
  induction l with
  | nil => simp [countWhile]
  | cons c t ih =>
      simp only [countWhile, List.length_cons]
      split <;> omega

theorem le_skipWs (input : List Char) (pos : Nat) : pos ≤ skipWs input pos :=
  Nat.le_add_right _ _

theorem skipWs_le {input : List Char} {pos : Nat} (h : pos ≤ input.length) :
    skipWs input pos ≤ input.length := by
  have := countWhile_le isSpaceChar (input.drop pos)
  simp [List.length_drop] at this
  unfold skipWs
  omega

theorem scanMantissa_le {l : List Char} {b : Bool} {k : Nat}
    (h : scanMantissa l b = .ok k) : k ≤ l.length := by
  induction l generalizing b k with
  | nil => simp [scanMantissa] at h; omega
  | cons c t ih =>
      simp only [scanMantissa] at h
      split at h
      · split at h
        · cases h
        · cases hrec : scanMantissa t true with
          | error e => rw [hrec] at h; cases h
          | ok k0 =>
              rw [hrec] at h
              simp [Except.map] at h
              have := ih hrec
              simp only [List.length_cons]
              omega
      · split at h
        · cases hrec : scanMantissa t b with
          | error e => rw [hrec] at h; cases h
          | ok k0 =>
              rw [hrec] at h
              simp [Except.map] at h
              have := ih hrec
              simp only [List.length_cons]
              omega
        · simp [Except.map] at h
          omega

theorem scanExpPart_le (l : List Char) : scanExpPart l ≤ l.length := by
  cases l with
  | nil => simp [scanExpPart]
  | cons c t =>
      simp only [scanExpPart, List.length_cons]
      split
      · cases t with
        | nil => simp
        | cons s t2 =>
            have h1 := countWhile_le isDigitChar t2
            have h2 := countWhile_le isDigitChar (s :: t2)
            simp only [List.length_cons] at h2 ⊢
            by_cases hs : s = '+' ∨ s = '-' <;> simp only [hs, if_true, if_false] <;> omega
      · omega

theorem parseNumber_le {input : List Char} {pos : Nat} {v : ℚ} {p' : Nat}
    (hpos : pos ≤ input.length) (h : parseNumber input pos = .ok (v, p')) :
    pos ≤ p' ∧ p' ≤ input.length := by
  have hsw1 := le_skipWs input pos
  have hsw2 := skipWs_le hpos
  unfold parseNumber at h
  simp only [] at h
  split at h
  · split at h
    · cases h
    · next k hk =>
        have hk1 := scanMantissa_le hk
        have hk2 := scanExpPart_le (input.drop (skipWs input pos + k))
        simp only [List.length_drop] at hk1 hk2
        split at h
        · cases h
        · split at h
          · cases h
          · simp only [Except.ok.injEq, Prod.mk.injEq] at h
            omega
  · cases h

/-- The cursor invariant of one evaluation: every successful production
returns a position that is at least its starting position and at most the
input length. -/
theorem parse_cursor : ∀ (fuel : Nat) (ctx : Ctx) (c : Call) (v : ℚ) (p' : Nat),
    c.pos ≤ ctx.input.length → parse ctx fuel c = .ok (v, p') →
    c.pos ≤ p' ∧ p' ≤ ctx.input.length := by
  intro fuel
  induction fuel with
  | zero =>
      intro ctx c v p' hpos hok
      rw [parse.eq_def] at hok
      simp at hok
  | succ f ih =>
      intro ctx c v p' hpos hok
      rw [parse.eq_def] at hok
      simp only [Nat.succ_ne_zero, if_false, Nat.add_sub_cancel] at hok
      cases c with
      | expr pos =>
          simp only [] at hok
          simp only [Call.pos] at hpos ⊢
          cases h1 : parse ctx f (.term pos) with
          | error e => rw [h1] at hok; cases hok
          | ok vp =>
              obtain ⟨v1, p1⟩ := vp
              rw [h1] at hok
              simp only [] at hok
              have hb1 := ih ctx (.term pos) v1 p1 hpos h1
              simp only [Call.pos] at hb1
              have hb2 := ih ctx (.exprLoop v1 p1) v p' (by simp only [Call.pos]; omega) hok
              simp only [Call.pos] at hb2
              omega
      | term pos =>
          simp only [] at hok
          simp only [Call.pos] at hpos ⊢
          cases h1 : parse ctx f (.factor pos) with
          | error e => rw [h1] at hok; cases hok
          | ok vp =>
              obtain ⟨v1, p1⟩ := vp
              rw [h1] at hok
              simp only [] at hok
              have hb1 := ih ctx (.factor pos) v1 p1 hpos h1
              simp only [Call.pos] at hb1
              have hb2 := ih ctx (.termLoop v1 p1) v p' (by simp only [Call.pos]; omega) hok
              simp only [Call.pos] at hb2
              omega
      | exprLoop acc pos =>
          simp only [] at hok
          simp only [Call.pos] at hpos ⊢
          have hsw1 := le_skipWs ctx.input pos
          have hsw2 := skipWs_le hpos
          split at hok
          · split at hok
            · split at hok
              · cases h1 : parse ctx f (.term (skipWs ctx.input pos + 1)) with
                | error e => rw [h1] at hok; cases hok
                | ok vp =>
                    obtain ⟨v1, p1⟩ := vp
                    rw [h1] at hok
                    simp only [] at hok
                    have hb1 := ih ctx (.term (skipWs ctx.input pos + 1)) v1 p1
                      (by simp only [Call.pos]; omega) h1
                    simp only [Call.pos] at hb1
                    have hb2 := ih ctx (.exprLoop _ p1) v p' (by simp only [Call.pos]; omega) hok
                    simp only [Call.pos] at hb2
                    omega
              · simp only [Except.ok.injEq, Prod.mk.injEq] at hok
                omega
            · simp only [Except.ok.injEq, Prod.mk.injEq] at hok
              omega
          · simp only [Except.ok.injEq, Prod.mk.injEq] at hok
            omega
      | termLoop acc pos =>
          simp only [] at hok
          simp only [Call.pos] at hpos ⊢
          have hsw1 := le_skipWs ctx.input pos
          have hsw2 := skipWs_le hpos
          split at hok
          · split at hok
            · split at hok
              · cases h1 : parse ctx f (.factor (skipWs ctx.input pos + 1)) with
                | error e => rw [h1] at hok; cases hok
                | ok vp =>
                    obtain ⟨v1, p1⟩ := vp
                    rw [h1] at hok
                    simp only [] at hok
                    have hb1 := ih ctx (.factor (skipWs ctx.input pos + 1)) v1 p1
                      (by simp only [Call.pos]; omega) h1
                    simp only [Call.pos] at hb1
                    split at hok
                    · cases hok
                    · have hb2 := ih ctx (.termLoop _ p1) v p' (by simp only [Call.pos]; omega) hok
                      simp only [Call.pos] at hb2
                      omega
              · simp only [Except.ok.injEq, Prod.mk.injEq] at hok
                omega
            · simp only [Except.ok.injEq, Prod.mk.injEq] at hok
              omega
          · simp only [Except.ok.injEq, Prod.mk.injEq] at hok
            omega
      | factor pos =>
          simp only [] at hok
          simp only [Call.pos] at hpos ⊢
          have hsw1 := le_skipWs ctx.input pos
          have hsw2 := skipWs_le hpos
          split at hok
          case isTrue hplen =>
            split at hok
            · -- unary sign
              cases h1 : parse ctx f (.factor (skipWs ctx.input pos + 1)) with
              | error e => rw [h1] at hok; cases hok
              | ok vp =>
                  obtain ⟨v1, p1⟩ := vp
                  rw [h1] at hok
                  simp only [Except.ok.injEq, Prod.mk.injEq] at hok
                  have hb1 := ih ctx (.factor (skipWs ctx.input pos + 1)) v1 p1
                    (by simp only [Call.pos]; omega) h1
                  simp only [Call.pos] at hb1
                  omega
            · split at hok
              · -- parenthesized group
                cases h1 : parse ctx f (.expr (skipWs ctx.input pos + 1)) with
                | error e => rw [h1] at hok; cases hok
                | ok vp =>
                    obtain ⟨v1, p1⟩ := vp
                    rw [h1] at hok
                    simp only [] at hok
                    have hb1 := ih ctx (.expr (skipWs ctx.input pos + 1)) v1 p1
                      (by simp only [Call.pos]; omega) h1
                    simp only [Call.pos] at hb1
                    have hq1 := le_skipWs ctx.input p1
                    have hq2 := @skipWs_le ctx.input p1 (by omega)
                    split at hok
                    case isTrue hcond =>
                      have hr1 := le_skipWs ctx.input (skipWs ctx.input p1 + 1)
                      have hr2 := @skipWs_le ctx.input (skipWs ctx.input p1 + 1) (by omega)
                      split at hok
                      · cases h2 : parse ctx f
                            (.factor (skipWs ctx.input (skipWs ctx.input p1 + 1) + 1)) with
                        | error e => rw [h2] at hok; cases hok
                        | ok vp2 =>
                            obtain ⟨v2, p2⟩ := vp2
                            rw [h2] at hok
                            simp only [Except.ok.injEq, Prod.mk.injEq] at hok
                            have hb2 := ih ctx
                              (.factor (skipWs ctx.input (skipWs ctx.input p1 + 1) + 1))
                              v2 p2 (by simp only [Call.pos]; omega) h2
                            simp only [Call.pos] at hb2
                            omega
                      · simp only [Except.ok.injEq, Prod.mk.injEq] at hok
                        omega
                    case isFalse => cases hok
              · split at hok
                · -- identifier
                  have hke := countWhile_le isIdentChar
                    (ctx.input.drop (skipWs ctx.input pos))
                  simp only [List.length_drop] at hke
                  have hie1 : skipWs ctx.input pos ≤ identEnd ctx.input (skipWs ctx.input pos) :=
                    Nat.le_add_right _ _
                  have hie2 : identEnd ctx.input (skipWs ctx.input pos) ≤ ctx.input.length := by
                    unfold identEnd
                    omega
                  have hq1 := le_skipWs ctx.input (identEnd ctx.input (skipWs ctx.input pos))
                  have hq2 := @skipWs_le ctx.input
                    (identEnd ctx.input (skipWs ctx.input pos)) hie2
                  split at hok
                  case isTrue hcond =>
                    -- function call
                    cases h1 : parse ctx f
                        (.expr (skipWs ctx.input (identEnd ctx.input (skipWs ctx.input pos)) + 1)) with
                    | error e => rw [h1] at hok; cases hok
                    | ok vp =>
                        obtain ⟨v1, p1⟩ := vp
                        rw [h1] at hok
                        simp only [] at hok
                        have hb1 := ih ctx
                          (.expr (skipWs ctx.input (identEnd ctx.input (skipWs ctx.input pos)) + 1))
                          v1 p1 (by simp only [Call.pos]; omega) h1
                        simp only [Call.pos] at hb1
                        have hr1 := le_skipWs ctx.input p1
                        have hr2 := @skipWs_le ctx.input p1 (by omega)
                        split at hok
                        case isTrue hcond2 =>
                          split at hok
                          · cases hok
                          · split at hok
                            · cases hok
                            · simp only [Except.ok.injEq, Prod.mk.injEq] at hok
                              omega
                        case isFalse => cases hok
                  case isFalse =>
                    -- constant
                    split at hok
                    · simp only [Except.ok.injEq, Prod.mk.injEq] at hok
                      omega
                    · cases hok
                · -- number
                  cases h1 : parseNumber ctx.input (skipWs ctx.input pos) with
                  | error e => rw [h1] at hok; cases hok
                  | ok vp =>
                      obtain ⟨v1, p1⟩ := vp
                      rw [h1] at hok
                      simp only [] at hok
                      have hb1 := @parseNumber_le ctx.input
                        (skipWs ctx.input pos) _ _ (by omega) h1
                      have hq1 := le_skipWs ctx.input p1
                      have hq2 := @skipWs_le ctx.input p1 (by omega)
                      split at hok
                      case isTrue hc =>
                        have hcl : skipWs ctx.input p1 < ctx.input.length := hc.1
                        cases h2 : parse ctx f (.factor (skipWs ctx.input p1 + 1)) with
                        | error e => rw [h2] at hok; cases hok
                        | ok vp2 =>
                            obtain ⟨v2, p2⟩ := vp2
                            rw [h2] at hok
                            simp only [Except.ok.injEq, Prod.mk.injEq] at hok
                            have hb2 := ih ctx (.factor (skipWs ctx.input p1 + 1)) v2 p2
                              (by simp only [Call.pos]; omega) h2
                            simp only [Call.pos] at hb2
                            omega
                      case isFalse hc =>
                        simp only [Except.ok.injEq, Prod.mk.injEq] at hok
                        omega
          case isFalse => cases hok

set_option maxHeartbeats 4000000

theorem lookupConst_e : lookupReg defaultConstants "e" = some StandardCalculator.E := by
  simp [defaultConstants, lookupReg]

theorem lookupFunc_ln (m : MathLib) :
    lookupReg (defaultFunctions m) "ln" = some (StandardCalculator.calcLog m) := by
  simp [defaultFunctions, lookupReg]

set_option maxHeartbeats 4000000

theorem lnParen_factor (m : MathLib) :
    parse ⟨"ln((e)^2)".data, m, defaultFunctions m,
        defaultConstants⟩ 42 (.factor 0)
      = .ok (m.unary "log" (StandardCalculator.E * StandardCalculator.E), 9) := by
  simp [parse_expr, parse_term, parse_exprLoop_end,
    parse_exprLoop_stop, parse_exprLoop_plus, parse_exprLoop_minus, parse_termLoop_end,
    parse_termLoop_stop, parse_termLoop_mul, parse_termLoop_div, parse_termLoop_mod,
    parse_factor_end, parse_factor_neg, parse_factor_plus, parse_factor_paren,
    parse_factor_ident, parse_factor_num, parseNumber, skipWs, countWhile, charAt,
    isSpaceChar, isDigitChar, isAlphaChar, isIdentChar, identEnd, identName,
    scanMantissa, scanExpPart, stodQ, stodExp, decValue, digitsVal, digitVal,
    lookupConst_e, lookupFunc_ln, StandardCalculator.calcLog, StandardCalculator.power,
    StandardCalculator.E, Except.map, String.length]
  norm_num

theorem parse_expr_succ (ctx : Ctx) (fuel pos : Nat) :
    parse ctx (fuel + 1) (.expr pos) =
      match parse ctx fuel (.term pos) with
      | .error e => .error e
      | .ok (v, p) => parse ctx fuel (.exprLoop v p) := by
  rw [parse_expr ctx (fuel + 1) pos (by omega)]
  norm_num

theorem parse_term_succ (ctx : Ctx) (fuel pos : Nat) :
    parse ctx (fuel + 1) (.term pos) =
      match parse ctx fuel (.factor pos) with
      | .error e => .error e
      | .ok (v, p) => parse ctx fuel (.termLoop v p) := by
  rw [parse_term ctx (fuel + 1) pos (by omega)]
  norm_num

theorem lnParen_termLoop (m : MathLib) :
    parse ⟨"ln((e)^2)".data, m, defaultFunctions m, defaultConstants⟩ 42
      (.termLoop (m.unary "log" (StandardCalculator.E * StandardCalculator.E)) 9)
      = .ok (m.unary "log" (StandardCalculator.E * StandardCalculator.E), 9) := by
  rw [parse_termLoop_end]
  · norm_num
  · norm_num [String.length]

theorem lnParen_term (m : MathLib) :
    parse ⟨"ln((e)^2)".data, m, defaultFunctions m, defaultConstants⟩ 43 (.term 0)
      = .ok (m.unary "log" (StandardCalculator.E * StandardCalculator.E), 9) := by
  rw [show (43 : Nat) = 42 + 1 from rfl, parse_term_succ, lnParen_factor]
  exact lnParen_termLoop m

theorem lnParen_exprLoop (m : MathLib) :
    parse ⟨"ln((e)^2)".data, m, defaultFunctions m, defaultConstants⟩ 43
      (.exprLoop (m.unary "log" (StandardCalculator.E * StandardCalculator.E)) 9)
      = .ok (m.unary "log" (StandardCalculator.E * StandardCalculator.E), 9) := by
  rw [parse_exprLoop_end]
  · norm_num
  · norm_num [String.length]

theorem lnParen_expr (m : MathLib) :
    parse ⟨"ln((e)^2)".data, m, defaultFunctions m, defaultConstants⟩ 44 (.expr 0)
      = .ok (m.unary "log" (StandardCalculator.E * StandardCalculator.E), 9) := by
  rw [show (44 : Nat) = 43 + 1 from rfl, parse_expr_succ, lnParen_term]
  exact lnParen_exprLoop m

theorem evaluate_lnParen (m : MathLib) :
    evaluate m "ln((e)^2)" = .ok (m.unary "log" (StandardCalculator.E * StandardCalculator.E)) := by
  show (parse ⟨"ln((e)^2)".data, m, defaultFunctions m, defaultConstants⟩
      (evalFuel "ln((e)^2)") (.expr 0)).map Prod.fst = _
  rw [show evalFuel "ln((e)^2)" = 44 from by simp [evalFuel, String.length], lnParen_expr]
  rfl

/-! ## The claims -/

/-- A letter is none of the characters dispatched before the identifier
branch of `parse_factor`. -/
theorem isAlphaChar_excl {c : Char} (h : isAlphaChar c = true) :
    c ≠ '-' ∧ c ≠ '+' ∧ c ≠ '(' := by
  refine ⟨?_, ?_, ?_⟩ <;> rintro rfl <;> simp [isAlphaChar] at h

/-- Counterexample to C1: against the default registries,
`evaluate "ln(e^2)"` does not succeed at all.  No `^` is consumed after an
identifier, so the call argument ends after the constant `e`, the required
`)` is not found, and the mismatched-parentheses (function call) error is
raised. -/
theorem C1_counterexample :
    evaluate zeroMathLib "ln(e^2)" = .error .mismatchedParensFunc := by
  simp [evaluate, evaluateWith, evalFuel, parse_expr, parse_term, parse_exprLoop_end,
    parse_exprLoop_stop, parse_exprLoop_plus, parse_exprLoop_minus, parse_termLoop_end,
    parse_termLoop_stop, parse_termLoop_mul, parse_termLoop_div, parse_termLoop_mod,
    parse_factor_end, parse_factor_neg, parse_factor_plus, parse_factor_paren,
    parse_factor_ident, parse_factor_num, parseNumber, skipWs, countWhile, charAt,
    isSpaceChar, isDigitChar, isAlphaChar, isIdentChar, identEnd, identName,
    scanMantissa, scanExpPart, stodQ, stodExp, decValue, digitsVal, digitVal,
    lookupFunc_ln, lookupConst_e, StandardCalculator.calcLog, StandardCalculator.E,
    StandardCalculator.power, Except.map, String.length] <;> norm_num

/-- Claim C1, amended: `evaluate "ln(e^2)"` is the mismatched-parentheses
(function call) error for every math library, not a value near `2.0`; with
the base parenthesized, `evaluate "ln((e)^2)"` does parse and returns the
`ln` binding (the natural logarithm of the math library) applied to
`e * e`. -/
theorem C1_theorem (m : MathLib) :
    evaluate m "ln(e^2)" = .error .mismatchedParensFunc ∧
    evaluate m "ln((e)^2)" =
      .ok (m.unary "log" (StandardCalculator.E * StandardCalculator.E)) := by
  refine ⟨?_, evaluate_lnParen m⟩
  simp [evaluate, evaluateWith, evalFuel, parse_expr, parse_term, parse_exprLoop_end,
    parse_exprLoop_stop, parse_exprLoop_plus, parse_exprLoop_minus, parse_termLoop_end,
    parse_termLoop_stop, parse_termLoop_mul, parse_termLoop_div, parse_termLoop_mod,
    parse_factor_end, parse_factor_neg, parse_factor_plus, parse_factor_paren,
    parse_factor_ident, parse_factor_num, parseNumber, skipWs, countWhile, charAt,
    isSpaceChar, isDigitChar, isAlphaChar, isIdentChar, identEnd, identName,
    scanMantissa, scanExpPart, stodQ, stodExp, decValue, digitsVal, digitVal,
    lookupFunc_ln, lookupConst_e, StandardCalculator.calcLog, StandardCalculator.E,
    StandardCalculator.power, Except.map, String.length] <;> norm_num

/-- Claim C2: the power check appears in exactly the two branches of
`parse_factor` that follow a closing parenthesis and a numeric literal.
Exhaustively over the remaining branches: after a unary minus the factor is
the negated recursive factor with no power check, likewise after a unary
plus; a constant reference returns immediately after its identifier,
consuming nothing further; a function call returns immediately after its
closing parenthesis, consuming nothing further.  After a parenthesized
group and after a numeric literal a following `^` is consumed and the
exponent parsed by recursing into `factor`.  Consequently
`evaluate "-2^2" = -(2^2) = -4` while `evaluate "2^2" = 4`; a `^` after a
constant identifier is left unconsumed (`evaluate "e^2"` returns the
constant `e` itself); and a `^` after a function call is left unconsumed
(`evaluate "abs(4)^2"` returns `4`, while the parenthesized-group input
`evaluate "(4)^2"` returns `16`). -/
theorem C2_theorem :
    (∀ (ctx : Ctx) (fuel pos : Nat),
        skipWs ctx.input pos < ctx.input.length →
        charAt ctx.input (skipWs ctx.input pos) = '-' →
        parse ctx (fuel + 1) (.factor pos) =
          match parse ctx fuel (.factor (skipWs ctx.input pos + 1)) with
          | .error e => .error e
          | .ok (v, p') => .ok (-v, p')) ∧
    (∀ (ctx : Ctx) (fuel pos : Nat),
        skipWs ctx.input pos < ctx.input.length →
        charAt ctx.input (skipWs ctx.input pos) = '+' →
        parse ctx (fuel + 1) (.factor pos) =
          parse ctx fuel (.factor (skipWs ctx.input pos + 1))) ∧
    (∀ (ctx : Ctx) (fuel pos : Nat) (c : ℚ),
        skipWs ctx.input pos < ctx.input.length →
        isAlphaChar (charAt ctx.input (skipWs ctx.input pos)) = true →
        ¬(skipWs ctx.input (identEnd ctx.input (skipWs ctx.input pos)) < ctx.input.length ∧
            charAt ctx.input (skipWs ctx.input (identEnd ctx.input (skipWs ctx.input pos))) =
              '(') →
        lookupReg ctx.consts (identName ctx.input (skipWs ctx.input pos)) = some c →
        parse ctx (fuel + 1) (.factor pos) =
          .ok (c, skipWs ctx.input (identEnd ctx.input (skipWs ctx.input pos)))) ∧
    (∀ (ctx : Ctx) (fuel pos : Nat),
        skipWs ctx.input pos < ctx.input.length →
        isAlphaChar (charAt ctx.input (skipWs ctx.input pos)) = true →
        skipWs ctx.input (identEnd ctx.input (skipWs ctx.input pos)) < ctx.input.length →
        charAt ctx.input (skipWs ctx.input (identEnd ctx.input (skipWs ctx.input pos))) =
          '(' →
        parse ctx (fuel + 1) (.factor pos) =
          match parse ctx fuel
              (.expr (skipWs ctx.input (identEnd ctx.input (skipWs ctx.input pos)) + 1)) with
          | .error e => .error e
          | .ok (arg, p3) =>
              if skipWs ctx.input p3 < ctx.input.length ∧
                  charAt ctx.input (skipWs ctx.input p3) = ')' then
                match lookupReg ctx.funcs (identName ctx.input (skipWs ctx.input pos)) with
                | none =>
                    .error (.unknownFunction (identName ctx.input (skipWs ctx.input pos)))
                | some f =>
                    match f arg with
                    | .error e => .error e
                    | .ok v => .ok (v, skipWs ctx.input p3 + 1)
              else .error .mismatchedParensFunc) ∧
    (∀ (ctx : Ctx) (fuel pos : Nat),
        skipWs ctx.input pos < ctx.input.length →
        charAt ctx.input (skipWs ctx.input pos) = '(' →
        parse ctx (fuel + 1) (.factor pos) =
          match parse ctx fuel (.expr (skipWs ctx.input pos + 1)) with
          | .error e => .error e
          | .ok (v, p1) =>
              if skipWs ctx.input p1 < ctx.input.length ∧
                  charAt ctx.input (skipWs ctx.input p1) = ')' then
                if skipWs ctx.input (skipWs ctx.input p1 + 1) < ctx.input.length ∧
                    charAt ctx.input (skipWs ctx.input (skipWs ctx.input p1 + 1)) = '^' then
                  match parse ctx fuel
                      (.factor (skipWs ctx.input (skipWs ctx.input p1 + 1) + 1)) with
                  | .error e => .error e
                  | .ok (ex, p4) => .ok (StandardCalculator.power ctx.mlib v ex, p4)
                else .ok (v, skipWs ctx.input (skipWs ctx.input p1 + 1))
              else .error .mismatchedParens) ∧
    (∀ (ctx : Ctx) (fuel pos : Nat),
        skipWs ctx.input pos < ctx.input.length →
        charAt ctx.input (skipWs ctx.input pos) ≠ '-' →
        charAt ctx.input (skipWs ctx.input pos) ≠ '+' →
        charAt ctx.input (skipWs ctx.input pos) ≠ '(' →
        isAlphaChar (charAt ctx.input (skipWs ctx.input pos)) = false →
        parse ctx (fuel + 1) (.factor pos) =
          match parseNumber ctx.input (skipWs ctx.input pos) with
          | .error e => .error e
          | .ok (v, p1) =>
              if skipWs ctx.input p1 < ctx.input.length ∧
                  charAt ctx.input (skipWs ctx.input p1) = '^' then
                match parse ctx fuel (.factor (skipWs ctx.input p1 + 1)) with
                | .error e => .error e
                | .ok (ex, p3) => .ok (StandardCalculator.power ctx.mlib v ex, p3)
              else .ok (v, skipWs ctx.input p1)) ∧
    (∀ m, evaluate m "-2^2" = .ok (-4)) ∧
    (∀ m, evaluate m "2^2" = .ok 4) ∧
    (∀ m, evaluate m "e^2" = .ok StandardCalculator.E) ∧
    (∀ m, evaluate m "abs(4)^2" = .ok 4) ∧
    (∀ m, evaluate m "(4)^2" = .ok 16) := by
  refine ⟨?_, ?_, ?_, ?_, ?_, ?_, ?_, ?_, ?_, ?_, ?_⟩
  · intro ctx fuel pos hp hc
    simpa only [Nat.add_sub_cancel] using
      parse_factor_neg ctx (fuel + 1) pos (by omega) hp hc
  · intro ctx fuel pos hp hc
    simpa only [Nat.add_sub_cancel] using
      parse_factor_plus ctx (fuel + 1) pos (by omega) hp hc
  · intro ctx fuel pos c hp ha hnc hconst
    obtain ⟨h1, h2, h3⟩ := isAlphaChar_excl ha
    rw [parse_factor_ident ctx (fuel + 1) pos (by omega) hp h1 h2 h3 ha]
    simp [hnc, hconst]
  · intro ctx fuel pos hp ha h4 h5
    obtain ⟨h1, h2, h3⟩ := isAlphaChar_excl ha
    rw [parse_factor_ident ctx (fuel + 1) pos (by omega) hp h1 h2 h3 ha]
    simp only [Nat.add_sub_cancel, if_pos (And.intro h4 h5)]
  · intro ctx fuel pos hp hc
    simpa only [Nat.add_sub_cancel] using
      parse_factor_paren ctx (fuel + 1) pos (by omega) hp hc
  · intro ctx fuel pos hp hc1 hc2 hc3 ha
    simpa only [Nat.add_sub_cancel] using
      parse_factor_num ctx (fuel + 1) pos (by omega) hp hc1 hc2 hc3 ha
  · intro m
    simp [evaluate, evaluateWith, evalFuel, parse_expr, parse_term, parse_exprLoop_end,
      parse_exprLoop_stop, parse_exprLoop_plus, parse_exprLoop_minus, parse_termLoop_end,
      parse_termLoop_stop, parse_termLoop_mul, parse_termLoop_div, parse_termLoop_mod,
      parse_factor_end, parse_factor_neg, parse_factor_plus, parse_factor_paren,
      parse_factor_ident, parse_factor_num, parseNumber, skipWs, countWhile, charAt,
      isSpaceChar, isDigitChar, isAlphaChar, isIdentChar, identEnd, identName,
      scanMantissa, scanExpPart, stodQ, stodExp, decValue, digitsVal, digitVal, lookupReg,
      StandardCalculator.power, Except.map, String.length] <;> norm_num
  · intro m
    simp [evaluate, evaluateWith, evalFuel, parse_expr, parse_term, parse_exprLoop_end,
      parse_exprLoop_stop, parse_exprLoop_plus, parse_exprLoop_minus, parse_termLoop_end,
      parse_termLoop_stop, parse_termLoop_mul, parse_termLoop_div, parse_termLoop_mod,
      parse_factor_end, parse_factor_neg, parse_factor_plus, parse_factor_paren,
      parse_factor_ident, parse_factor_num, parseNumber, skipWs, countWhile, charAt,
      isSpaceChar, isDigitChar, isAlphaChar, isIdentChar, identEnd, identName,
      scanMantissa, scanExpPart, stodQ, stodExp, decValue, digitsVal, digitVal, lookupReg,
      StandardCalculator.power, Except.map, String.length] <;> norm_num
  · intro m
    simp [evaluate, evaluateWith, evalFuel, parse_expr, parse_term, parse_exprLoop_end,
      parse_exprLoop_stop, parse_exprLoop_plus, parse_exprLoop_minus, parse_termLoop_end,
      parse_termLoop_stop, parse_termLoop_mul, parse_termLoop_div, parse_termLoop_mod,
      parse_factor_end, parse_factor_neg, parse_factor_plus, parse_factor_paren,
      parse_factor_ident, parse_factor_num, parseNumber, skipWs, countWhile, charAt,
      isSpaceChar, isDigitChar, isAlphaChar, isIdentChar, identEnd, identName,
      scanMantissa, scanExpPart, stodQ, stodExp, decValue, digitsVal, digitVal,
      lookupConst_e, Except.map, String.length] <;> norm_num
  · intro m
    simp [evaluate, evaluateWith, evalFuel, parse_expr, parse_term, parse_exprLoop_end,
      parse_exprLoop_stop, parse_exprLoop_plus, parse_exprLoop_minus, parse_termLoop_end,
      parse_termLoop_stop, parse_termLoop_mul, parse_termLoop_div, parse_termLoop_mod,
      parse_factor_end, parse_factor_neg, parse_factor_plus, parse_factor_paren,
      parse_factor_ident, parse_factor_num, parseNumber, skipWs, countWhile, charAt,
      isSpaceChar, isDigitChar, isAlphaChar, isIdentChar, identEnd, identName,
      scanMantissa, scanExpPart, stodQ, stodExp, decValue, digitsVal, digitVal,
      lookupReg, defaultFunctions, StandardCalculator.calcAbs,
      Except.map, String.length] <;> norm_num
  · intro m
    simp [evaluate, evaluateWith, evalFuel, parse_expr, parse_term, parse_exprLoop_end,
      parse_exprLoop_stop, parse_exprLoop_plus, parse_exprLoop_minus, parse_termLoop_end,
      parse_termLoop_stop, parse_termLoop_mul, parse_termLoop_div, parse_termLoop_mod,
      parse_factor_end, parse_factor_neg, parse_factor_plus, parse_factor_paren,
      parse_factor_ident, parse_factor_num, parseNumber, skipWs, countWhile, charAt,
      isSpaceChar, isDigitChar, isAlphaChar, isIdentChar, identEnd, identName,
      scanMantissa, scanExpPart, stodQ, stodExp, decValue, digitsVal, digitVal,
      StandardCalculator.power, Except.map, String.length] <;> norm_num

/-- Witness for C2: the unary-minus branch applied at the input `"-2"`. -/
theorem C2_witness :
    parse ⟨"-2".data, zeroMathLib, [], []⟩ 6 (.factor 0) =
      match parse ⟨"-2".data, zeroMathLib, [], []⟩ 5
          (.factor (skipWs ("-2".data) 0 + 1)) with
      | .error e => .error e
      | .ok (v, p') => .ok (-v, p') :=
  C2_theorem.1 ⟨"-2".data, zeroMathLib, [], []⟩ 5 0 (by decide) (by decide)

/-- Claim C3: the power operator is right-associative because the exponent
recursion re-enters `factor`: `2^3^2` evaluates as `2^(3^2) = 512`, while
the explicitly left-grouped `(2^3)^2` evaluates to `64`. -/
theorem C3_theorem (m : MathLib) :
    evaluate m "2^3^2" = .ok 512 ∧ evaluate m "(2^3)^2" = .ok 64 := by
  constructor
  · simp [evaluate, evaluateWith, evalFuel, parse_expr, parse_term, parse_exprLoop_end,
      parse_exprLoop_stop, parse_exprLoop_plus, parse_exprLoop_minus, parse_termLoop_end,
      parse_termLoop_stop, parse_termLoop_mul, parse_termLoop_div, parse_termLoop_mod,
      parse_factor_end, parse_factor_neg, parse_factor_plus, parse_factor_paren,
      parse_factor_ident, parse_factor_num, parseNumber, skipWs, countWhile, charAt,
      isSpaceChar, isDigitChar, isAlphaChar, isIdentChar, identEnd, identName,
      scanMantissa, scanExpPart, stodQ, stodExp, decValue, digitsVal, digitVal,
      StandardCalculator.power, Except.map, String.length] <;> norm_num
  · simp [evaluate, evaluateWith, evalFuel, parse_expr, parse_term, parse_exprLoop_end,
      parse_exprLoop_stop, parse_exprLoop_plus, parse_exprLoop_minus, parse_termLoop_end,
      parse_termLoop_stop, parse_termLoop_mul, parse_termLoop_div, parse_termLoop_mod,
      parse_factor_end, parse_factor_neg, parse_factor_plus, parse_factor_paren,
      parse_factor_ident, parse_factor_num, parseNumber, skipWs, countWhile, charAt,
      isSpaceChar, isDigitChar, isAlphaChar, isIdentChar, identEnd, identName,
      scanMantissa, scanExpPart, stodQ, stodExp, decValue, digitsVal, digitVal,
      StandardCalculator.power, Except.map, String.length] <;> norm_num

/-- Claim C4: over the whole grammar of flat `+ - * / %` expressions on
numeric literals (`SimpleExpr`), evaluation is left-to-right and
left-associative within each tier with the multiplicative tier binding
tighter (`specExpr` is exactly that semantics, and `evaluate` refines it on
every rendered expression); in particular `2 + 2 * 3 = 8` and
`(2 + 3) * 4 = 20`. -/
theorem C4_theorem :
    (∀ (m : MathLib) (e : SimpleExpr),
        evaluate m (String.mk (renderExpr e)) = specExpr e) ∧
    (∀ m, evaluate m "2 + 2 * 3" = .ok 8) ∧
    (∀ m, evaluate m "(2 + 3) * 4" = .ok 20) := by
  refine ⟨fun m e => evaluate_renderExpr m e, ?_, ?_⟩
  · intro m
    simp [evaluate, evaluateWith, evalFuel, parse_expr, parse_term, parse_exprLoop_end,
      parse_exprLoop_stop, parse_exprLoop_plus, parse_exprLoop_minus, parse_termLoop_end,
      parse_termLoop_stop, parse_termLoop_mul, parse_termLoop_div, parse_termLoop_mod,
      parse_factor_end, parse_factor_neg, parse_factor_plus, parse_factor_paren,
      parse_factor_ident, parse_factor_num, parseNumber, skipWs, countWhile, charAt,
      isSpaceChar, isDigitChar, isAlphaChar, isIdentChar, identEnd, identName,
      scanMantissa, scanExpPart, stodQ, stodExp, decValue, digitsVal, digitVal,
      StandardCalculator.add, StandardCalculator.multiply, Except.map,
      String.length] <;> norm_num
  · intro m
    simp [evaluate, evaluateWith, evalFuel, parse_expr, parse_term, parse_exprLoop_end,
      parse_exprLoop_stop, parse_exprLoop_plus, parse_exprLoop_minus, parse_termLoop_end,
      parse_termLoop_stop, parse_termLoop_mul, parse_termLoop_div, parse_termLoop_mod,
      parse_factor_end, parse_factor_neg, parse_factor_plus, parse_factor_paren,
      parse_factor_ident, parse_factor_num, parseNumber, skipWs, countWhile, charAt,
      isSpaceChar, isDigitChar, isAlphaChar, isIdentChar, identEnd, identName,
      scanMantissa, scanExpPart, stodQ, stodExp, decValue, digitsVal, digitVal,
      StandardCalculator.add, StandardCalculator.multiply, Except.map,
      String.length] <;> norm_num

/-- Counterexample to C5: `"2e"` does scan as a single number token.  The
exponent marker is consumed unconditionally, with no digit required after
it; `std::stod` then converts the longest valid prefix, so the token has
value `2` and both characters are consumed. -/
theorem C5_counterexample :
    parseNumber ("2e".data) 0 = .ok (2, 2) ∧ evaluate zeroMathLib "2e" = .ok 2 := by
  constructor
  · simp [parseNumber, skipWs, countWhile, charAt, isSpaceChar, isDigitChar,
      scanMantissa, scanExpPart, stodQ, stodExp, decValue, digitsVal, digitVal,
      Except.map, String.length] <;> norm_num
  · simp [evaluate, evaluateWith, evalFuel, parse_expr, parse_term, parse_exprLoop_end,
      parse_exprLoop_stop, parse_exprLoop_plus, parse_exprLoop_minus, parse_termLoop_end,
      parse_termLoop_stop, parse_termLoop_mul, parse_termLoop_div, parse_termLoop_mod,
      parse_factor_end, parse_factor_neg, parse_factor_plus, parse_factor_paren,
      parse_factor_ident, parse_factor_num, parseNumber, skipWs, countWhile, charAt,
      isSpaceChar, isDigitChar, isAlphaChar, isIdentChar, identEnd, identName,
      scanMantissa, scanExpPart, stodQ, stodExp, decValue, digitsVal, digitVal,
      Except.map, String.length] <;> norm_num

/-- Claim C5, amended: the scanner takes a maximal run of digits with at
most one decimal point; if the next character is `e`/`E` it is consumed
together with an optional sign and zero or more digits, and `std::stod`
then converts the longest valid prefix of the scanned text.  So `"2e+"` is
one token of value `2` with all three characters consumed, `"2e5"` and
`"1.25e2"` are scientific literals with their usual values, `"12.5"` is a
plain decimal, and a lone `"."` scans one character but fails the
conversion. -/
theorem C5_theorem :
    parseNumber ("2e+".data) 0 = .ok (2, 3) ∧
    parseNumber ("2e5".data) 0 = .ok (200000, 3) ∧
    parseNumber ("1.25e2".data) 0 = .ok (125, 6) ∧
    parseNumber ("12.5".data) 0 = .ok (25 / 2, 4) ∧
    parseNumber (".".data) 0 = .error (.invalidNumber ".") := by
  refine ⟨?_, ?_, ?_, ?_, ?_⟩ <;>
    simp [parseNumber, skipWs, countWhile, charAt, isSpaceChar, isDigitChar,
      scanMantissa, scanExpPart, stodQ, stodExp, decValue, digitsVal, digitVal,
      Except.map, String.length] <;> norm_num

/-- Claim C6: identifier resolution is two disjoint registries with no
fallback.  `"foo(1)"` fails function lookup fatally even though a constant
`foo` could exist (adding the constant `foo = 5` changes nothing); `"bar"`
and `"sin"` without parentheses consult only the constant registry and fail
with the unknown-identifier error (even though `sin` is a registered
function); `"pi(1)"` fails function lookup even though `pi` is a registered
constant. -/
theorem C6_theorem (m : MathLib) :
    evaluate m "foo(1)" = .error (.unknownFunction "foo") ∧
    evaluate m "bar" = .error (.unknownIdentifier "bar") ∧
    evaluate m "sin" = .error (.unknownIdentifier "sin") ∧
    evaluate m "pi(1)" = .error (.unknownFunction "pi") ∧
    evaluateWith m (defaultFunctions m) (insertReg defaultConstants "foo" 5) "foo(1)" =
      .error (.unknownFunction "foo") := by
  refine ⟨?_, ?_, ?_, ?_, ?_⟩ <;>
    simp [evaluate, evaluateWith, evalFuel, parse_expr, parse_term, parse_exprLoop_end,
      parse_exprLoop_stop, parse_exprLoop_plus, parse_exprLoop_minus, parse_termLoop_end,
      parse_termLoop_stop, parse_termLoop_mul, parse_termLoop_div, parse_termLoop_mod,
      parse_factor_end, parse_factor_neg, parse_factor_plus, parse_factor_paren,
      parse_factor_ident, parse_factor_num, parseNumber, skipWs, countWhile, charAt,
      isSpaceChar, isDigitChar, isAlphaChar, isIdentChar, identEnd, identName,
      scanMantissa, scanExpPart, stodQ, stodExp, decValue, digitsVal, digitVal,
      lookupReg, insertReg, defaultFunctions, defaultConstants,
      Except.map, String.length] <;> norm_num

/-- Claim C7: `divide` and `modulo` raise their domain error exactly when
the right operand is zero, inside the arithmetic primitives themselves; the
grammar passes the operands straight through, so `evaluate "10 / 0"` is the
division domain error and `evaluate "10 % 0"` the modulo one. -/
theorem C7_theorem :
    (∀ a b : ℚ,
        (StandardCalculator.divide a b = .error (.domainError "Division by zero") ↔
          b = 0) ∧
        (b ≠ 0 → StandardCalculator.divide a b = .ok (a / b))) ∧
    (∀ a b : ℚ,
        (StandardCalculator.modulo a b = .error (.domainError "Modulo by zero") ↔
          b = 0) ∧
        (b ≠ 0 → StandardCalculator.modulo a b = .ok (StandardCalculator.fmodQ a b))) ∧
    (∀ m, evaluate m "10 / 0" = .error (.domainError "Division by zero")) ∧
    (∀ m, evaluate m "10 % 0" = .error (.domainError "Modulo by zero")) := by
  refine ⟨?_, ?_, ?_, ?_⟩
  · intro a b
    constructor
    · by_cases hb : b = 0 <;> simp [StandardCalculator.divide, hb]
    · intro hb; simp [StandardCalculator.divide, hb]
  · intro a b
    constructor
    · by_cases hb : b = 0 <;> simp [StandardCalculator.modulo, hb]
    · intro hb; simp [StandardCalculator.modulo, hb]
  · intro m
    simp [evaluate, evaluateWith, evalFuel, parse_expr, parse_term, parse_exprLoop_end,
      parse_exprLoop_stop, parse_exprLoop_plus, parse_exprLoop_minus, parse_termLoop_end,
      parse_termLoop_stop, parse_termLoop_mul, parse_termLoop_div, parse_termLoop_mod,
      parse_factor_end, parse_factor_neg, parse_factor_plus, parse_factor_paren,
      parse_factor_ident, parse_factor_num, parseNumber, skipWs, countWhile, charAt,
      isSpaceChar, isDigitChar, isAlphaChar, isIdentChar, identEnd, identName,
      scanMantissa, scanExpPart, stodQ, stodExp, decValue, digitsVal, digitVal,
      StandardCalculator.divide, Except.map, String.length] <;> norm_num
  · intro m
    simp [evaluate, evaluateWith, evalFuel, parse_expr, parse_term, parse_exprLoop_end,
      parse_exprLoop_stop, parse_exprLoop_plus, parse_exprLoop_minus, parse_termLoop_end,
      parse_termLoop_stop, parse_termLoop_mul, parse_termLoop_div, parse_termLoop_mod,
      parse_factor_end, parse_factor_neg, parse_factor_plus, parse_factor_paren,
      parse_factor_ident, parse_factor_num, parseNumber, skipWs, countWhile, charAt,
      isSpaceChar, isDigitChar, isAlphaChar, isIdentChar, identEnd, identName,
      scanMantissa, scanExpPart, stodQ, stodExp, decValue, digitsVal, digitVal,
      StandardCalculator.modulo, Except.map, String.length] <;> norm_num

/-- Witness for C7: a successful division and a modulo-by-zero error. -/
theorem C7_witness :
    StandardCalculator.divide (10 : ℚ) 4 = .ok (10 / 4) ∧
    StandardCalculator.modulo (10 : ℚ) 0 = .error (.domainError "Modulo by zero") :=
  ⟨(C7_theorem.1 10 4).2 (by norm_num), ((C7_theorem.2.1 10 0).1).mpr rfl⟩

/-- Claim C8: a numeric literal with two decimal points is the fatal
invalid-number-format error, raised by the scanning loop itself:
`evaluate "1.2.3"` and `parse_number` on the same text both yield it. -/
theorem C8_theorem (m : MathLib) :
    evaluate m "1.2.3" = .error .invalidNumberFormat ∧
    parseNumber ("1.2.3".data) 0 = .error .invalidNumberFormat := by
  constructor
  · simp [evaluate, evaluateWith, evalFuel, parse_expr, parse_term, parse_exprLoop_end,
      parse_exprLoop_stop, parse_exprLoop_plus, parse_exprLoop_minus, parse_termLoop_end,
      parse_termLoop_stop, parse_termLoop_mul, parse_termLoop_div, parse_termLoop_mod,
      parse_factor_end, parse_factor_neg, parse_factor_plus, parse_factor_paren,
      parse_factor_ident, parse_factor_num, parseNumber, skipWs, countWhile, charAt,
      isSpaceChar, isDigitChar, isAlphaChar, isIdentChar, identEnd, identName,
      scanMantissa, scanExpPart, stodQ, stodExp, decValue, digitsVal, digitVal,
      Except.map, String.length] <;> norm_num
  · simp [parseNumber, skipWs, countWhile, charAt, isSpaceChar, isDigitChar,
      scanMantissa, scanExpPart, stodQ, stodExp, decValue, digitsVal, digitVal,
      Except.map, String.length] <;> norm_num

/-- Claim C9: the cursor invariant.  Every successful production started at
a position within bounds finishes at a position that is at least the start
position (monotone non-decrease through one evaluation) and at most the
input length; `parse_number` satisfies the same bound; and `evaluate`
always starts the top-level `expression` at position zero. -/
theorem C9_theorem :
    (∀ (ctx : Ctx) (fuel : Nat) (c : Call) (v : ℚ) (p' : Nat),
        c.pos ≤ ctx.input.length → parse ctx fuel c = .ok (v, p') →
        c.pos ≤ p' ∧ p' ≤ ctx.input.length) ∧
    (∀ (input : List Char) (pos : Nat) (v : ℚ) (p' : Nat),
        pos ≤ input.length → parseNumber input pos = .ok (v, p') →
        pos ≤ p' ∧ p' ≤ input.length) ∧
    (∀ (m : MathLib) (s : String),
        evaluate m s =
          (parse ⟨s.data, m, defaultFunctions m, defaultConstants⟩ (evalFuel s)
            (.expr 0)).map Prod.fst) :=
  ⟨fun ctx fuel c v p' h1 h2 => parse_cursor fuel ctx c v p' h1 h2,
   fun _ _ _ _ h1 h2 => parseNumber_le h1 h2,
   fun _ _ => rfl⟩

/-- Witness for C9 on the evaluation of `"2+2"`, which succeeds with value
`4` at final position `3`. -/
theorem C9_witness :
    (Call.expr 0).pos ≤ ("2+2".data).length ∧
    ((Call.expr 0).pos ≤ 3 ∧ (3 : Nat) ≤ ("2+2".data).length) := by
  have hok : parse ⟨"2+2".data, zeroMathLib, defaultFunctions zeroMathLib, defaultConstants⟩
      20 (.expr 0) = .ok (4, 3) := by
    simp [parse_expr, parse_term, parse_exprLoop_end,
      parse_exprLoop_stop, parse_exprLoop_plus, parse_exprLoop_minus, parse_termLoop_end,
      parse_termLoop_stop, parse_termLoop_mul, parse_termLoop_div, parse_termLoop_mod,
      parse_factor_end, parse_factor_neg, parse_factor_plus, parse_factor_paren,
      parse_factor_ident, parse_factor_num, parseNumber, skipWs, countWhile, charAt,
      isSpaceChar, isDigitChar, isAlphaChar, isIdentChar, identEnd, identName,
      scanMantissa, scanExpPart, stodQ, stodExp, decValue, digitsVal, digitVal,
      StandardCalculator.add, Except.map, String.length] <;> norm_num
  exact ⟨by decide, C9_theorem.1 _ 20 (.expr 0) 4 3 (by decide) hok⟩

/-- Claim C10: `evaluate` performs no end-of-input check after the
top-level expression: whenever that production succeeds with value `v` at
any final position, `evaluate` returns `v` and the trailing unconsumed
characters are silently ignored; in particular `"2+2)"` evaluates to `4`
and `"2 2"` to `2`. -/
theorem C10_theorem :
    (∀ (m : MathLib) (s : String) (v : ℚ) (p : Nat),
        parse ⟨s.data, m, defaultFunctions m, defaultConstants⟩ (evalFuel s) (.expr 0) =
          .ok (v, p) →
        evaluate m s = .ok v) ∧
    (∀ m, evaluate m "2+2)" = .ok 4) ∧
    (∀ m, evaluate m "2 2" = .ok 2) := by
  refine ⟨?_, ?_, ?_⟩
  · intro m s v p h
    show (parse ⟨s.data, m, defaultFunctions m, defaultConstants⟩ (evalFuel s)
        (.expr 0)).map Prod.fst = .ok v
    rw [h]
    rfl
  · intro m
    simp [evaluate, evaluateWith, evalFuel, parse_expr, parse_term, parse_exprLoop_end,
      parse_exprLoop_stop, parse_exprLoop_plus, parse_exprLoop_minus, parse_termLoop_end,
      parse_termLoop_stop, parse_termLoop_mul, parse_termLoop_div, parse_termLoop_mod,
      parse_factor_end, parse_factor_neg, parse_factor_plus, parse_factor_paren,
      parse_factor_ident, parse_factor_num, parseNumber, skipWs, countWhile, charAt,
      isSpaceChar, isDigitChar, isAlphaChar, isIdentChar, identEnd, identName,
      scanMantissa, scanExpPart, stodQ, stodExp, decValue, digitsVal, digitVal,
      StandardCalculator.add, Except.map, String.length] <;> norm_num
  · intro m
    simp [evaluate, evaluateWith, evalFuel, parse_expr, parse_term, parse_exprLoop_end,
      parse_exprLoop_stop, parse_exprLoop_plus, parse_exprLoop_minus, parse_termLoop_end,
      parse_termLoop_stop, parse_termLoop_mul, parse_termLoop_div, parse_termLoop_mod,
      parse_factor_end, parse_factor_neg, parse_factor_plus, parse_factor_paren,
      parse_factor_ident, parse_factor_num, parseNumber, skipWs, countWhile, charAt,
      isSpaceChar, isDigitChar, isAlphaChar, isIdentChar, identEnd, identName,
      scanMantissa, scanExpPart, stodQ, stodExp, decValue, digitsVal, digitVal,
      Except.map, String.length] <;> norm_num

/-- Witness for C10 at the input `"2+2)"`: the top-level expression parses
the prefix `2+2` with value `4`, and `evaluate` returns `4`. -/
theorem C10_witness : evaluate zeroMathLib "2+2)" = .ok 4 := by
  have h : parse ⟨"2+2)".data, zeroMathLib, defaultFunctions zeroMathLib, defaultConstants⟩
      (evalFuel "2+2)") (.expr 0) = .ok (4, 3) := by
    simp [evalFuel, parse_expr, parse_term, parse_exprLoop_end,
      parse_exprLoop_stop, parse_exprLoop_plus, parse_exprLoop_minus, parse_termLoop_end,
      parse_termLoop_stop, parse_termLoop_mul, parse_termLoop_div, parse_termLoop_mod,
      parse_factor_end, parse_factor_neg, parse_factor_plus, parse_factor_paren,
      parse_factor_ident, parse_factor_num, parseNumber, skipWs, countWhile, charAt,
      isSpaceChar, isDigitChar, isAlphaChar, isIdentChar, identEnd, identName,
      scanMantissa, scanExpPart, stodQ, stodExp, decValue, digitsVal, digitVal,
      StandardCalculator.add, Except.map, String.length] <;> norm_num
  exact C10_theorem.1 zeroMathLib "2+2)" 4 3 h

end OpenCalc
